import Mathlib

/-!
# Verification of the twitter2reddit publication pipeline

A shallow embedding of the pipeline implemented in `twitter2reddit.py`
(the working monolithic implementation; the half-refactored package under
`twitter2reddit/` has broken imports and is referenced only where a claim
points at it).  Pure helpers become Lean functions; the stateful pipeline
becomes explicit state passing over a record-store state, with an
instrumentation trace of external side effects and database writes, an
optional fuel bound that models the process being killed after a given
number of effects, and an error flag that models a propagating Python
exception.
-/

set_option autoImplicit false

namespace T2R

/-- Python regex class matched by a backslash-s in the ASCII range, as used by
the pattern in the function clean_text of class TweetStatus. -/
def isPyWs (c : Char) : Bool :=
  c == ' ' || c == '\t' || c == '\n' || c == '\r' || c == '\x0b' || c == '\x0c'

/-- The literal part of the pattern in clean_text. -/
def tcoLit : List Char := "https://t.co/".data

/-- No newline character occurs in the list. -/
def noNewline (l : List Char) : Bool := l.all (fun c => c != '\n')

/-- A match of the pattern (one or more whitespace, then the literal
short-link host, then a lazy dot-star anchored by a dollar with MULTILINE
off) attempted at the head of `l`.  Returns the characters the substitution
keeps after the removed span: the dollar anchor matches either just before a
single final newline (preferred by the lazy star, which also cannot cross a
newline) or at the very end of the string. -/
def matchTail (l : List Char) : Option (List Char) :=
  let rest := l.dropWhile isPyWs
  if rest.take tcoLit.length = tcoLit then
    let r := rest.drop tcoLit.length
    if r.getLast? = some '\n' && noNewline r.dropLast then some ['\n']
    else if noNewline r then some []
    else none
  else none

/-- Left-to-right scan of re.sub with the pattern of clean_text: the first
position whose character is whitespace and where the rest of the pattern
matches has the whole matched span removed.  Any match must end at (or one
newline before) the end of the string, so at most one removal happens and
the kept remainder cannot match again. -/
def cleanChars : List Char → List Char
  | [] => []
  | c :: rest =>
    if isPyWs c then
      match matchTail (c :: rest) with
      | some rem => rem
      | none => c :: cleanChars rest
    else c :: cleanChars rest

/-- TweetStatus.clean_text: re.sub of the trailing whitespace-plus-short-link
suffix by the empty string. -/
def clean_text (s : String) : String := ⟨cleanChars s.data⟩

/-- One media attachment of a raw twitter status: its https url and whether
the key "large" occurs in its sizes dictionary. -/
structure Media where
  media_url_https : String
  hasLarge : Bool
deriving DecidableEq, Repr

/-- A raw status as returned by the feed client.  The date field carries the
string the source derives from created_at_in_seconds via strftime; no claim
depends on the formatting itself, so the formatted value is taken as input. -/
structure Status where
  sid : Nat
  screen_name : String
  name : String
  text : String
  media : List Media
  date : String
deriving DecidableEq, Repr

/-- TweetStatus.media_url. -/
def media_url (m : Media) : String :=
  m.media_url_https ++ (if m.hasLarge then "?name=large" else "")

/-- TweetStatus.tweet_url. -/
def tweet_url (screen_name : String) (sid : Nat) : String :=
  "https://twitter.com/" ++ screen_name ++ "/status/" ++ toString sid

/-- The TweetStatus constructor: cleaned text, crafted url, media urls. -/
structure TweetStatus where
  sid : Nat
  date : String
  screen_name : String
  name : String
  url : String
  text : String
  media : List String
deriving DecidableEq, Repr

/-- Build a TweetStatus from a raw status, as TweetStatus's init does. -/
def mkTweetStatus (st : Status) : TweetStatus :=
  { sid := st.sid
    date := st.date
    screen_name := st.screen_name
    name := st.name
    url := tweet_url st.screen_name st.sid
    text := clean_text st.text
    media := st.media.map media_url }

example : clean_text "check this out https://t.co/AbC123" = "check this out" := by decide
example : clean_text "no link here" = "no link here" := by decide
example : clean_text "a\t\n https://t.co/x" = "a" := by decide
example : clean_text "tail https://t.co/x\n" = "tail\n" := by decide
example : clean_text "keep https://t.co/x more words" = "keep" := by decide
example : clean_text "a\nb https://t.co/x" = "a\nb" := by decide

/-!
## The record store

TinyDB documents are JSON dictionaries.  A document of the pipeline's table
carries the keys written by TwitterToReddit.to_imgur (the db_entry
dictionary) and, after the post stage, the keys written by
TwitterToReddit.to_reddit.  Nullable values are Option; a key that no code
path ever writes behaves like a null on every read that uses dict.get.  The
key "com" is read by to_reddit through post.get but is never written by any
writer (to_reddit's upsert writes the key "comment"), so the com field of a
document is none in every state the program produces; it is kept in the
model because the read exists in the source.  The sid field is an Option
because TinyDB's upsert inserts the bare update dictionary (which has no
sid key) when no document matches. -/
structure Doc where
  sid : Option Nat
  name : String
  user : String
  tweet : String
  raw : String
  title : Option String
  imgs : List String
  url : Option String
  album : Option String
  aid : Option String
  post : Option String
  comment : Option String
  com : Option String
  number : Nat
deriving DecidableEq, Repr

/-- The db_entry dictionary built by to_imgur: exactly the keys listed
there, in particular no comment and no com key. -/
structure Entry where
  sid : Nat
  name : String
  user : String
  tweet : String
  raw : String
  title : Option String
  imgs : List String
  url : Option String
  album : Option String
  aid : Option String
  post : Option String
  number : Nat
deriving DecidableEq, Repr

/-- Updating an existing document with the keys of a db_entry dictionary:
every key of the dictionary overwrites, the comment and com keys are not in
the dictionary and stay. -/
def applyEntry (e : Entry) (d : Doc) : Doc :=
  { d with
    sid := some e.sid, name := e.name, user := e.user, tweet := e.tweet
    raw := e.raw, title := e.title, imgs := e.imgs, url := e.url
    album := e.album, aid := e.aid, post := e.post, number := e.number }

/-- Inserting a db_entry dictionary as a fresh document. -/
def entryDoc (e : Entry) : Doc :=
  { sid := some e.sid, name := e.name, user := e.user, tweet := e.tweet
    raw := e.raw, title := e.title, imgs := e.imgs, url := e.url
    album := e.album, aid := e.aid, post := e.post
    comment := none, com := none, number := e.number }

/-- The persistent state: the table rows in insertion order plus the number
field of the counter row that get_number and increment_number use. -/
structure DB where
  docs : List Doc
  number : Nat
deriving DecidableEq, Repr

/-- Database.check_upload: search for documents whose sid equals the value,
in insertion order. -/
def check_upload (db : DB) (sid : Nat) : List Doc :=
  db.docs.filter (fun d => d.sid == some sid)

/-- Database.get_docs over a list of sid values: the searches are run in
order and all matches are collected. -/
def get_docs (db : DB) (sids : List Nat) : List Doc :=
  sids.flatMap (fun v => check_upload db v)

/-- Database.upsert called from to_imgur with a full db_entry dictionary:
update all documents matching the sid, or insert the dictionary as a new
document when none matches. -/
def upsertEntry (db : DB) (sid : Nat) (e : Entry) : DB :=
  if db.docs.any (fun d => d.sid == some sid) then
    { db with docs := db.docs.map (fun d => if d.sid == some sid then applyEntry e d else d) }
  else
    { db with docs := db.docs ++ [entryDoc e] }

/-- Database.upsert called from to_reddit with the dictionary of the keys
post, url and comment: update all documents matching the sid, or insert
that bare dictionary as a new document (one with no sid key and none of the
media keys) when none matches. -/
def upsertPost (db : DB) (sid : Nat) (post url comment : Option String) : DB :=
  if db.docs.any (fun d => d.sid == some sid) then
    { db with docs := db.docs.map (fun d =>
        if d.sid == some sid then { d with post := post, url := url, comment := comment } else d) }
  else
    { db with docs := db.docs ++
        [{ sid := none, name := "", user := "", tweet := "", raw := "", title := none
           imgs := [], url := url, album := none, aid := none
           post := post, comment := comment, com := none, number := 0 }] }

/-- Database.increment_number on the counter row. -/
def incrementNumber (db : DB) : DB := { db with number := db.number + 1 }

/-!
## External clients and the effect trace

The three network clients are oracles: each call either returns a value or
raises (Except.error with a numeric code standing for the exception).  Every
external call and every database write is recorded in a trace; each trace
event is tagged with the sid of the item being processed at that moment so
that per-item properties can be read off the trace.  The submission object
praw returns is represented by its permalink string: submit yields the
permalink, and disabling inbox replies and replying are keyed by it. -/

/-- Upload configuration dictionary built by ImgurImages.gen_config. -/
structure ImgCfg where
  album : Option String
  name : String
  title : String
  description : String
deriving DecidableEq, Repr

/-- Album configuration dictionary held by ImgurAlbum. -/
structure AlbumCfg where
  title : Option String
  desc : Option String
deriving DecidableEq, Repr

/-- Decidable equality for oracle results recorded in the trace. -/
instance exceptDecEq {ε α : Type} [DecidableEq ε] [DecidableEq α] : DecidableEq (Except ε α) :=
  fun a b =>
    match a, b with
    | .ok x, .ok y => if h : x = y then .isTrue (by rw [h]) else .isFalse (by simp [h])
    | .error x, .error y => if h : x = y then .isTrue (by rw [h]) else .isFalse (by simp [h])
    | .ok _, .error _ => .isFalse (by simp)
    | .error _, .ok _ => .isFalse (by simp)

/-- Trace events: external side effects and database writes, tagged with
the sid of the item under processing (the create_album call made through
all_album.add for an all album with no deletehash keeps the tag of the item
whose images were being added). -/
inductive Ev where
  | upload_from_url (sid : Nat) (mediaUrl : String) (res : Except Nat String)
  | album_add_images (sid : Nat) (deletehash : String) (ids : List String)
  | create_album (sid : Nat) (cfg : AlbumCfg) (res : Except Nat (String × String))
  | get_album (sid : Nat) (deletehash : String)
  | submit (sid : Nat) (title url : String) (res : Except Nat String)
  | disable_inbox (sid : Nat) (postRef : String)
  | reply (sid : Nat) (postRef body : String) (res : Except Nat String)
  | db_upsert_entry (sid : Nat) (e : Entry)
  | db_upsert_post (sid : Nat) (post url comment : Option String)
  | db_increment (sid : Nat)
deriving DecidableEq, Repr

/-- A propagating Python exception. -/
inductive PyErr where
  | api (code : Nat)
  | attrError
  | indexError
  | keyError
deriving DecidableEq, Repr

/-- The client oracles.  create_album returns the pair of deletehash and id
of the fresh album; get_album returns the album id; submit returns the
permalink of the created submission; reply returns the permalink of the
created comment. -/
structure Clients where
  upload_from_url : String → ImgCfg → Except Nat String
  album_add_images : String → List String → Except Nat Unit
  create_album : AlbumCfg → Except Nat (String × String)
  get_album : String → Except Nat String
  submit : String → String → String → Except Nat String
  disable_inbox_replies : String → Except Nat Unit
  reply : String → String → Except Nat String

/-- Client oracles that never raise, given by their success functions. -/
structure TotalClients where
  upload_from_url : String → ImgCfg → String
  create_album : AlbumCfg → String × String
  get_album : String → String
  submit : String → String → String → String
  reply : String → String → String

/-- The raising-free client bundle of a TotalClients. -/
def TotalClients.toClients (t : TotalClients) : Clients :=
  { upload_from_url := fun u c => .ok (t.upload_from_url u c)
    album_add_images := fun _ _ => .ok ()
    create_album := fun c => .ok (t.create_album c)
    get_album := fun h => .ok (t.get_album h)
    submit := fun s ti u => .ok (t.submit s ti u)
    disable_inbox_replies := fun _ => .ok ()
    reply := fun p b => .ok (t.reply p b) }

/-- In-memory state of an ImgurAlbum object. -/
structure Album where
  deletehash : Option String
  aid : Option String
  url : Option String
  title : Option String
  desc : Option String
deriving DecidableEq, Repr

/-- ImgurAlbum.form_url. -/
def form_url (album_id : String) : String := "https://imgur.com/a/" ++ album_id

/-- The execution state threaded through one call of
TwitterToReddit.upload: the database, the mutable instance attributes
number and all_album, the instrumentation trace, the optional remaining
effect budget (none means the run is never interrupted; some n means the
process dies at the start of effect n+1), the killed flag and the
propagating exception. -/
structure St where
  db : DB
  allAlbum : Album
  number : Nat
  trace : List Ev
  fuel : Option Nat
  crashed : Bool
  err : Option PyErr
deriving Repr

/-- Execution can make no further step: the process was killed or an
exception is propagating. -/
def St.halted (s : St) : Bool := s.crashed || s.err.isSome

/-- Guarded external call: skipped entirely when halted; kills the process
when the fuel budget is exhausted; otherwise consumes one unit, records the
event built from the oracle's answer, and either returns the value or sets
the propagating exception.  The dummy value is returned on every
non-success path and is never observable through the database or the
trace. -/
def opCall {α : Type} (s : St) (r : Except Nat α) (ev : Except Nat α → Ev)
    (errOf : Nat → PyErr) (dummy : α) : St × α :=
  if s.halted then (s, dummy)
  else if s.fuel = some 0 then ({ s with crashed := true }, dummy)
  else
    let s' := { s with fuel := s.fuel.map (· - 1), trace := s.trace ++ [ev r] }
    match r with
    | .ok v => (s', v)
    | .error code => ({ s' with err := some (errOf code) }, dummy)

/-- Guarded database write (or other internal effect): same fuel and halt
discipline as an external call. -/
def opDb (s : St) (ev : Ev) (f : St → St) : St :=
  if s.halted then s
  else if s.fuel = some 0 then { s with crashed := true }
  else f { s with fuel := s.fuel.map (· - 1), trace := s.trace ++ [ev] }

/-- Raising an exception from inside the interpreted code (attribute,
index or key errors). -/
def opRaise (s : St) (e : PyErr) : St :=
  if s.halted then s else { s with err := some e }

/-!
## The imgur stage
-/

/-- ImgurAlbum.create: create the album when there is no deletehash, fetch
the album id when there is a deletehash but no id, otherwise only fill in
the url.  Returns the updated album object and the deletehash (the dummy
empty string stands for the value of an interrupted call).  A halted
execution runs none of this, in particular none of the in-memory
assignments, so the whole call is guarded. -/
def Album.create (c : Clients) (sidTag : Nat) (a : Album) (s : St) : St × Album × String :=
  if s.halted then (s, a, "") else
  match a.deletehash with
  | none =>
    let cfg : AlbumCfg := { title := a.title, desc := a.desc }
    let r := opCall s (c.create_album cfg) (fun r => .create_album sidTag cfg r) .api ("", "")
    (r.1, { a with deletehash := some r.2.1, aid := some r.2.2, url := some (form_url r.2.2) },
      r.2.1)
  | some dh =>
    match a.aid with
    | none =>
      let r := opCall s (c.get_album dh) (fun _ => .get_album sidTag dh) .api ""
      (r.1, { a with aid := some r.2, url := some (form_url r.2) }, dh)
    | some aidv =>
      let a' := if a.url = none then { a with url := some (form_url aidv) } else a
      (s, a', dh)

/-- ImgurAlbum.add: create the album first when it has no deletehash, then
add the image ids to it.  Guarded like Album.create. -/
def Album.add (c : Clients) (sidTag : Nat) (a : Album) (img_ids : List String) (s : St) :
    St × Album :=
  if s.halted then (s, a) else
  let r :=
    if a.deletehash = none then
      let r' := Album.create c sidTag a s
      (r'.1, r'.2.1)
    else (s, a)
  let dh := r.2.deletehash.getD ""
  let r2 := opCall r.1 (c.album_add_images dh img_ids)
      (fun _ => .album_add_images sidTag dh img_ids) .api ()
  (r2.1, r.2)

/-- Sixteen spaces: the indentation that the backslash line continuations
inside the source's string literals embed into the strings. -/
def sp16 : String := "                "

/-- In-memory state of an ImgurImages object (the fields its init copies
out of the tweet). -/
structure ImgurImagesM where
  name : String
  screen_name : String
  body : String
  url : String
  date : String
  media : List String
  album : Option String
  number : Nat
deriving DecidableEq, Repr

/-- ImgurImages.gen_config.  idx = some i is the branch for a
multi-image tweet (Python idx greater or equal zero); idx = none is the
default branch.  The single-image description reproduces the source's
literal string whose placeholders are never interpolated (the string lacks
the f marker), with literal braces written as escapes. -/
def gen_config (im : ImgurImagesM) (album : Option String) (idx : Option Nat) : ImgCfg :=
  match idx with
  | some i =>
    let title := "#" ++ toString im.number ++ " - " ++ im.body ++ " - @" ++ im.screen_name ++
      " " ++ sp16 ++ "- " ++ toString (i + 1) ++ " of " ++ toString im.media.length
    let desc := im.name ++ " (@" ++ im.screen_name ++ ") - " ++ toString (i + 1) ++ " of " ++
      sp16 ++ toString im.media.length ++ "\n#" ++ toString im.number ++ " - " ++ im.body ++
      sp16 ++ "\n\nCreated: " ++ im.date ++ "\t" ++ im.url
    { album := album, name := title, title := title, description := desc }
  | none =>
    let title := "#" ++ toString im.number ++ " - " ++ im.body ++ " - @" ++ im.screen_name
    let desc := "\x7bself.name\x7d (@\x7bself.screen_name\x7d)\n#\x7bself.number\x7d - " ++
      sp16 ++ "\x7bself.body\x7d\n\nCreated: \x7bself.date\x7d\t\x7bself.url\x7d"
    { album := album, name := title, title := title, description := desc }

/-- The loop of ImgurImages.upload: one upload_from_url call per media
entry, collecting the returned image ids. -/
def imgsUploadLoop (c : Clients) (sidTag : Nat) (im : ImgurImagesM) :
    List String → Nat → List String → St → St × List String
  | [], _, acc, s => (s, acc)
  | entry :: tl, i, acc, s =>
    let cfg := if im.media.length > 1 then gen_config im im.album (some i)
               else gen_config im im.album none
    let r := opCall s (c.upload_from_url entry cfg)
        (fun r => .upload_from_url sidTag entry r) .api ""
    imgsUploadLoop c sidTag im tl (i + 1) (acc ++ [r.2]) r.1

/-- The side-effect part of one iteration of the loop in
TwitterToReddit.to_imgur that precedes the two database writes: build the
db_entry dictionary, upload the images, set the title and direct url, add
the images to the all album and handle the per-tweet album branch.  The
self.number attribute is read at entry build time.  In the multi-image
branch single_album returns the deletehash string (ImgurAlbum.create's
return value), so the album.add attribute access on a str raises; reading
imgs of index zero on an empty list raises IndexError.  Returns the state
and the finished db_entry dictionary. -/
def to_imgur_item_pre (c : Clients) (ts : TweetStatus) (s : St) : St × Entry :=
  let e0 : Entry :=
    { sid := ts.sid, name := ts.name, user := ts.screen_name, tweet := ts.url
      raw := ts.text, title := none, imgs := [], url := none, album := none
      aid := none, post := none, number := s.number }
  let im : ImgurImagesM :=
    { name := ts.name, screen_name := ts.screen_name, body := ts.text, url := ts.url
      date := ts.date, media := ts.media, album := none, number := s.number }
  let r1 := imgsUploadLoop c ts.sid im ts.media 0 [] s
  let imgs := r1.2
  let e1 := { e0 with imgs := imgs
                      title := some ("#" ++ toString s.number ++ " - " ++ ts.text) }
  let s1 := if imgs.isEmpty then opRaise r1.1 .indexError else r1.1
  let url0 := "https://i.imgur.com/" ++ imgs.headD "" ++ ".jpg"
  let r2 := Album.add c ts.sid s1.allAlbum imgs s1
  let s2 := { r2.1 with allAlbum := r2.2 }
  let r3 :=
    if ts.media.length > 1 then
      let salb : Album :=
        { deletehash := none, aid := none, url := none
          title := some ("@" ++ ts.name ++ " - " ++ ts.text)
          desc := some ("Images from @" ++ ts.name ++ " at " ++ ts.url) }
      (opRaise (Album.create c ts.sid salb s2).1 .attrError, e1)
    else if ts.media.length = 1 then
      (s2, { e1 with album := s2.allAlbum.deletehash, aid := s2.allAlbum.aid })
    else (s2, e1)
  (r3.1, { r3.2 with url := some url0 })

/-- One iteration of the loop in TwitterToReddit.to_imgur: the
side-effect part above, then the upsert of the finished db_entry keyed by
sid, then the counter increment whose result is assigned to the number
attribute. -/
def to_imgur_item (c : Clients) (ts : TweetStatus) (s : St) : St × Doc :=
  let p := to_imgur_item_pre c ts s
  let s3 := opDb p.1 (.db_upsert_entry ts.sid p.2)
      (fun st => { st with db := upsertEntry st.db ts.sid p.2 })
  let s4 := opDb s3 (.db_increment ts.sid)
      (fun st =>
        let db := incrementNumber st.db
        { st with db := db, number := db.number })
  (s4, entryDoc p.2)

/-- TwitterToReddit.to_imgur: process the statuses in feed order,
collecting the db_entry dictionaries handed to the post stage. -/
def to_imgur (c : Clients) : List TweetStatus → St → St × List Doc
  | [], s => (s, [])
  | ts :: tl, s =>
    let r := to_imgur_item c ts s
    let rs := to_imgur c tl r.1
    (rs.1, r.2 :: rs.2)

/-!
## The reddit stage
-/

/-- The comment text built in RedditPost.upload from the document's name,
user, raw and tweet keys (the two line continuations embed the
indentation). -/
def comment_text (d : Doc) : String :=
  d.name ++ " (@" ++ d.user ++ ")\n" ++ d.raw ++ "\n\n" ++ d.tweet ++ "\n\n&nbsp;\n" ++
    sp16 ++ "\n^(I am a bot developed by /u/spsseano. My source code can " ++ sp16 ++
    "be found at https://github.com/spslater/twitter2reddit)"

/-- RedditPost.upload: with no post reference, submit the link, disable
inbox replies on the returned submission, record its permalink, reply with
the comment and record the comment's permalink.  With a post reference but
no comment reference the source replies on self.ret, which is only
assigned in the submit branch and is still None here, so the attribute
access raises.  With both references the call is a no-op.  praw's submit
receives the stored title and url values (the model passes empty strings
for the null case, which the working flow never produces). -/
def redditPost_upload (c : Clients) (subreddit : String) (sidTag : Nat) (d : Doc)
    (link title post0 com0 : Option String) (s : St) : St × Option String × Option String :=
  let ctext := comment_text d
  match post0 with
  | none =>
    let r1 := opCall s (c.submit subreddit (title.getD "") (link.getD ""))
        (fun res => .submit sidTag (title.getD "") (link.getD "") res) .api ""
    let pl := r1.2
    let r2 := opCall r1.1 (c.disable_inbox_replies pl)
        (fun _ => .disable_inbox sidTag pl) .api ()
    let r3 := opCall r2.1 (c.reply pl ctext) (fun res => .reply sidTag pl ctext res) .api ""
    (r3.1, some pl, some r3.2)
  | some _ =>
    match com0 with
    | none => (opRaise s .attrError, post0, com0)
    | some _ => (s, post0, com0)

/-- One iteration of the loop in TwitterToReddit.to_reddit: read the
document's fields (sid by subscript, which raises KeyError when the key is
absent; com through dict.get, and the key com is never written, so the
field is the model of that get), run RedditPost.upload, and on any
non-null result upsert the post, url and comment keys and collect the
post reference. -/
def to_reddit_item (c : Clients) (subreddit : String) (d : Doc) (s : St) :
    St × List (Option String) :=
  match d.sid with
  | none => (opRaise s .keyError, [])
  | some sid =>
    let r := redditPost_upload c subreddit sid d d.url d.title d.post d.com s
    let res := r.2.1
    let com' := r.2.2
    if res = none ∧ com' = none then (r.1, [])
    else
      let s' := opDb r.1 (.db_upsert_post sid res d.url com')
          (fun st => { st with db := upsertPost st.db sid res d.url com' })
      (s', [res])

/-- TwitterToReddit.to_reddit over a batch of documents, collecting the
appended post references in order. -/
def to_reddit (c : Clients) (subreddit : String) : List Doc → St → St × List (Option String)
  | [], s => (s, [])
  | d :: tl, s =>
    let r := to_reddit_item c subreddit d s
    let rs := to_reddit c subreddit tl r.1
    (rs.1, r.2 ++ rs.2)

/-!
## Discovery and the top-level run
-/

/-- The classification loop of TwitterToReddit.get_statuses: statuses
without media are ignored; a status whose first matching document has a
null post key is collected as pending; a status with no document is
collected as unchecked; anything else is skipped. -/
def classify (db : DB) : List Status → List Status × List Status
  | [] => ([], [])
  | st :: tl =>
    let r := classify db tl
    if st.media.isEmpty then r
    else
      match check_upload db st.sid with
      | [] => (st :: r.1, r.2)
      | d :: _ => if d.post = none then (r.1, st :: r.2) else r

/-- TwitterToReddit.get_statuses: classify the fetched feed against the
store and wrap both lists as TweetStatus values. -/
def get_statuses (db : DB) (feed : List Status) : List TweetStatus × List TweetStatus :=
  let r := classify db feed
  (r.1.map mkTweetStatus, r.2.map mkTweetStatus)

/-- TwitterToReddit.already_uploaded: fetch the documents of the given
statuses by sid. -/
def already_uploaded (db : DB) (statuses : List TweetStatus) : List Doc :=
  get_docs db (statuses.map (fun t => t.sid))

/-- The settings consumed by TwitterToReddit's constructor. -/
structure Settings where
  user : String
  subreddit : String
  all_hash : Option String
  all_name : Option String
  all_desc : Option String
deriving DecidableEq, Repr

/-- TwitterToReddit.upload: discover and classify, return None when both
lists are empty, otherwise run the imgur stage on the unchecked statuses,
post them, fetch the documents of the pending statuses from the store as
it stands after the imgur stage, post those, and return the concatenated
post references. -/
def upload (c : Clients) (sub : String) (feed : List Status) (s : St) :
    St × Option (List (Option String)) :=
  let g := get_statuses s.db feed
  let unchecked := g.1
  let pend := g.2
  if unchecked.length = 0 ∧ pend.length = 0 then (s, none)
  else
    let r1 := to_imgur c unchecked s
    let r2 := to_reddit c sub r1.2 r1.1
    let pendImgur := already_uploaded r2.1.db pend
    let r3 := to_reddit c sub pendImgur r2.1
    (r3.1, some (r2.2 ++ r3.2))

/-- The initial execution state of one top-level invocation: a fresh
TwitterToReddit object whose all_album is built from the settings and
whose number attribute is loaded from the counter row. -/
def initSt (cfg : Settings) (db : DB) (fuel : Option Nat) : St :=
  { db := db
    allAlbum :=
      { deletehash := cfg.all_hash, aid := none, url := none
        title := cfg.all_name, desc := cfg.all_desc }
    number := db.number
    trace := [], fuel := fuel, crashed := false, err := none }

/-- One top-level invocation: construct the object and call upload. -/
def runOnce (c : Clients) (cfg : Settings) (feed : List Status) (db : DB)
    (fuel : Option Nat) : St × Option (List (Option String)) :=
  upload c cfg.subreddit feed (initSt cfg db fuel)

/-!
## The retry driver of main.py

The caller only inspects whether the returned value is None or an empty
list, so it is modelled over the sequence of values the successive
upload calls return.
-/

/-- The first loop of main: while posts is None and the delay bound is not
reached, call upload again.  Returns the final posts value and the index
of the next unconsumed call. -/
def mainLoop1 (f : Nat → Option (List (Option String))) :
    Nat → Nat → Option (List (Option String)) × Nat
  | i, 0 => (none, i)
  | i, n + 1 =>
    match f i with
    | some r => (some r, i + 1)
    | none => mainLoop1 f (i + 1) n

/-- The second loop of main: while posts is an empty list and the attempt
bound is not reached, warn and call upload again. -/
def mainLoop2 (f : Nat → Option (List (Option String))) :
    Nat → Option (List (Option String)) → Nat → Option (List (Option String))
  | _, posts, 0 => posts
  | i, posts, n + 1 =>
    match posts with
    | some l => if l.isEmpty then mainLoop2 f (i + 1) (f i) n else posts
    | none => posts

/-- The driver of main: both loops in sequence, and whether the final
error log line (posts is not None and empty) fires.  The function is
total: no path raises. -/
def mainResult (f : Nat → Option (List (Option String))) (delayBound attemptBound : Nat) :
    Option (List (Option String)) × Bool :=
  let r := mainLoop1 f 0 delayBound
  let p2 := mainLoop2 f r.2 r.1 attemptBound
  (p2, p2 == some [])

/-!
## Trace observables
-/

/-- The sid tag of a trace event. -/
def Ev.tag : Ev → Nat
  | .upload_from_url s _ _ => s
  | .album_add_images s _ _ => s
  | .create_album s _ _ => s
  | .get_album s _ => s
  | .submit s _ _ _ => s
  | .disable_inbox s _ => s
  | .reply s _ _ _ => s
  | .db_upsert_entry s _ => s
  | .db_upsert_post s _ _ _ => s
  | .db_increment s => s

/-- The event is an imgur image upload for the given item. -/
def isUploadEv (sid : Nat) : Ev → Bool
  | .upload_from_url s _ _ => s == sid
  | _ => false

/-- The event is a reddit link submission for the given item. -/
def isSubmitEv (sid : Nat) : Ev → Bool
  | .submit s _ _ _ => s == sid
  | _ => false

/-- The event is a reddit comment for the given item. -/
def isReplyEv (sid : Nat) : Ev → Bool
  | .reply s _ _ _ => s == sid
  | _ => false

/-- How many imgur image uploads the trace holds for the item. -/
def uploadCount (sid : Nat) (tr : List Ev) : Nat := (tr.filter (isUploadEv sid)).length

/-- How many reddit link submissions the trace holds for the item. -/
def submitCount (sid : Nat) (tr : List Ev) : Nat := (tr.filter (isSubmitEv sid)).length

/-- How many reddit comments the trace holds for the item. -/
def replyCount (sid : Nat) (tr : List Ev) : Nat := (tr.filter (isReplyEv sid)).length

/-- The first stored document for the sid, as the searches of the source
read it. -/
def findDoc (db : DB) (sid : Nat) : Option Doc := (check_upload db sid).head?

/-- The sequence numbers of the media-stage upserts, in trace order. -/
def entryNums (tr : List Ev) : List Nat :=
  tr.filterMap (fun e => match e with
    | .db_upsert_entry _ en => some en.number
    | _ => none)

/-!
## Absorption: a halted execution makes no further step
-/

theorem opCall_halted {α : Type} {s : St} {r : Except Nat α} {ev : Except Nat α → Ev}
    {eo : Nat → PyErr} {d : α} (h : s.halted = true) : opCall s r ev eo d = (s, d) := by
  simp [opCall, h]

theorem opDb_halted {s : St} {ev : Ev} {f : St → St} (h : s.halted = true) :
    opDb s ev f = s := by
  simp [opDb, h]

theorem opRaise_halted {s : St} {e : PyErr} (h : s.halted = true) : opRaise s e = s := by
  simp [opRaise, h]

theorem albumCreate_halted {c : Clients} {t : Nat} {a : Album} {s : St}
    (h : s.halted = true) : Album.create c t a s = (s, a, "") := by
  simp [Album.create, h]

theorem albumAdd_halted {c : Clients} {t : Nat} {a : Album} {ids : List String} {s : St}
    (h : s.halted = true) : Album.add c t a ids s = (s, a) := by
  simp [Album.add, h]

theorem imgsUploadLoop_halted {c : Clients} {t : Nat} {im : ImgurImagesM}
    {l : List String} {i : Nat} {acc : List String} {s : St} (h : s.halted = true) :
    (imgsUploadLoop c t im l i acc s).1 = s := by
  induction l generalizing i acc with
  | nil => rfl
  | cons e tl ih =>
    simp only [imgsUploadLoop, opCall_halted h]
    exact ih

theorem st_self_allAlbum (s : St) : { s with allAlbum := s.allAlbum } = s := rfl

theorem to_imgur_item_pre_halted {c : Clients} {ts : TweetStatus} {s : St}
    (h : s.halted = true) : (to_imgur_item_pre c ts s).1 = s := by
  simp [to_imgur_item_pre, imgsUploadLoop_halted h, opRaise_halted h, albumAdd_halted h,
    albumCreate_halted h, st_self_allAlbum, apply_ite]

theorem to_imgur_item_halted {c : Clients} {ts : TweetStatus} {s : St}
    (h : s.halted = true) : (to_imgur_item c ts s).1 = s := by
  have h1 : (to_imgur_item_pre c ts s).1 = s := to_imgur_item_pre_halted h
  simp only [to_imgur_item, h1, opDb_halted h]

theorem to_imgur_halted {c : Clients} {l : List TweetStatus} {s : St}
    (h : s.halted = true) : (to_imgur c l s).1 = s := by
  induction l generalizing s with
  | nil => rfl
  | cons ts tl ih =>
    simp only [to_imgur, to_imgur_item_halted h]
    exact ih h

theorem redditPost_upload_halted {c : Clients} {sub : String} {t : Nat} {d : Doc}
    {link title post0 com0 : Option String} {s : St} (h : s.halted = true) :
    (redditPost_upload c sub t d link title post0 com0 s).1 = s := by
  cases post0 with
  | none => simp [redditPost_upload, opCall_halted h]
  | some p =>
    cases com0 with
    | none => simp [redditPost_upload, opRaise_halted h]
    | some q => simp [redditPost_upload]

theorem to_reddit_item_halted {c : Clients} {sub : String} {d : Doc} {s : St}
    (h : s.halted = true) : (to_reddit_item c sub d s).1 = s := by
  cases hs : d.sid with
  | none => simp [to_reddit_item, hs, opRaise_halted h]
  | some k =>
    simp only [to_reddit_item, hs]
    split
    · exact redditPost_upload_halted h
    · rw [opDb_halted, redditPost_upload_halted h]
      rw [redditPost_upload_halted h]
      exact h

theorem to_reddit_halted {c : Clients} {sub : String} {l : List Doc} {s : St}
    (h : s.halted = true) : (to_reddit c sub l s).1 = s := by
  induction l generalizing s with
  | nil => rfl
  | cons d tl ih =>
    simp only [to_reddit, to_reddit_item_halted h]
    exact ih h

/-!
## Characterizations of the primitive steps
-/

/-- Appending one event to the trace. -/
def pushEv (s : St) (e : Ev) : St := { s with trace := s.trace ++ [e] }

@[simp] theorem pushEv_db (s : St) (e : Ev) : (pushEv s e).db = s.db := rfl

@[simp] theorem pushEv_allAlbum (s : St) (e : Ev) : (pushEv s e).allAlbum = s.allAlbum := rfl

@[simp] theorem pushEv_number (s : St) (e : Ev) : (pushEv s e).number = s.number := rfl

@[simp] theorem pushEv_trace (s : St) (e : Ev) : (pushEv s e).trace = s.trace ++ [e] := rfl

@[simp] theorem pushEv_fuel (s : St) (e : Ev) : (pushEv s e).fuel = s.fuel := rfl

@[simp] theorem pushEv_crashed (s : St) (e : Ev) : (pushEv s e).crashed = s.crashed := rfl

@[simp] theorem pushEv_err (s : St) (e : Ev) : (pushEv s e).err = s.err := rfl

@[simp] theorem pushEv_halted (s : St) (e : Ev) : (pushEv s e).halted = s.halted := rfl

theorem opCall_ok {α : Type} {s : St} {v : α} {ev : Except Nat α → Ev} {eo : Nat → PyErr}
    {d : α} (hh : s.halted = false) (hf : s.fuel = none) :
    opCall s (.ok v) ev eo d = (pushEv s (ev (.ok v)), v) := by
  obtain ⟨db, al, n, tr, fu, cr, er⟩ := s
  simp only [St.halted] at hh hf
  subst hf
  simp [opCall, St.halted, pushEv, hh]

theorem opCall_error {α : Type} {s : St} {code : Nat} {ev : Except Nat α → Ev}
    {eo : Nat → PyErr} {d : α} (hh : s.halted = false) (hf : s.fuel = none) :
    opCall s (.error code) ev eo d =
      ({ pushEv s (ev (.error code)) with err := some (eo code) }, d) := by
  obtain ⟨db, al, n, tr, fu, cr, er⟩ := s
  simp only [St.halted] at hh hf
  subst hf
  simp [opCall, St.halted, pushEv, hh]

theorem opDb_go {s : St} {ev : Ev} {f : St → St} (hh : s.halted = false)
    (hf : s.fuel = none) : opDb s ev f = f (pushEv s ev) := by
  obtain ⟨db, al, n, tr, fu, cr, er⟩ := s
  simp only [St.halted] at hh hf
  subst hf
  simp [opDb, St.halted, pushEv, hh]

theorem opRaise_go {s : St} {e : PyErr} (hh : s.halted = false) :
    opRaise s e = { s with err := some e } := by
  simp [opRaise, hh]

/-!
## Store lemmas
-/

/-- A document for the sid is stored. -/
def hasSid (db : DB) (k : Nat) : Prop := ∃ d ∈ db.docs, d.sid = some k

/-- Filtering after a pointwise update that neither makes an element start
matching nor changes a matching element leaves the filter output alone. -/
theorem filter_map_eq {α : Type} (l : List α) (f : α → α) (p : α → Bool)
    (h : ∀ x ∈ l, p (f x) = p x ∧ (p x = true → f x = x)) :
    (l.map f).filter p = l.filter p := by
  induction l with
  | nil => rfl
  | cons a tl ih =>
    have ha := h a (List.mem_cons_self _ _)
    have htl := fun x hx => h x (List.mem_cons_of_mem _ hx)
    simp only [List.map_cons, List.filter_cons, ha.1]
    cases hp : p a with
    | false => simpa [hp] using ih htl
    | true => simp [hp, ha.2 hp, ih htl]

theorem check_upload_upsertEntry_ne {db : DB} {sid : Nat} {e : Entry} {k : Nat}
    (hk : k ≠ sid) (he : e.sid = sid) :
    check_upload (upsertEntry db sid e) k = check_upload db k := by
  simp only [check_upload, upsertEntry]
  split
  · exact filter_map_eq _ _ _ (fun d _ => by
      constructor
      · by_cases h : d.sid = some sid
        · simp [h, applyEntry, he, hk, Ne.symm hk]
        · simp [h]
      · intro hp
        simp only [beq_iff_eq] at hp
        simp [hp, hk, Ne.symm hk])
  · simp [entryDoc, he, Ne.symm hk]

theorem check_upload_upsertPost_ne {db : DB} {sid : Nat} {p u cm : Option String} {k : Nat}
    (hk : k ≠ sid) : check_upload (upsertPost db sid p u cm) k = check_upload db k := by
  simp only [check_upload, upsertPost]
  split
  · exact filter_map_eq _ _ _ (fun d _ => by
      constructor
      · by_cases h : d.sid = some sid <;> simp [h]
      · intro hp
        simp only [beq_iff_eq] at hp
        simp [hp, hk, Ne.symm hk])
  · simp

theorem check_upload_incrementNumber (db : DB) (k : Nat) :
    check_upload (incrementNumber db) k = check_upload db k := rfl

theorem hasSid_upsertEntry {db : DB} {sid : Nat} {e : Entry} {k : Nat} (h : hasSid db k)
    (he : e.sid = sid) : hasSid (upsertEntry db sid e) k := by
  obtain ⟨d, hd, hds⟩ := h
  simp only [upsertEntry]
  split
  · by_cases hmatch : d.sid = some sid
    · refine ⟨applyEntry e d, ?_, ?_⟩
      · have hfd : (fun x => if x.sid == some sid then applyEntry e x else x) d
            = applyEntry e d := by simp [hmatch]
        exact hfd ▸ List.mem_map_of_mem _ hd
      · simp only [applyEntry, he]
        rw [hmatch] at hds
        simp only [Option.some_inj] at hds
        simp [hds]
    · refine ⟨d, ?_, hds⟩
      have hfd : (fun x => if x.sid == some sid then applyEntry e x else x) d = d := by
        simp [hmatch]
      exact hfd ▸ List.mem_map_of_mem _ hd
  · exact ⟨d, List.mem_append_left _ hd, hds⟩

theorem hasSid_upsertPost {db : DB} {sid : Nat} {p u cm : Option String} {k : Nat}
    (h : hasSid db k) : hasSid (upsertPost db sid p u cm) k := by
  obtain ⟨d, hd, hds⟩ := h
  simp only [upsertPost]
  split
  · by_cases hmatch : d.sid = some sid
    · refine ⟨{ d with post := p, url := u, comment := cm }, ?_, hds⟩
      have hfd : (fun x => if x.sid == some sid then
          { x with post := p, url := u, comment := cm } else x) d =
          { d with post := p, url := u, comment := cm } := by simp [hmatch]
      exact hfd ▸ List.mem_map_of_mem _ hd
    · refine ⟨d, ?_, hds⟩
      have hfd : (fun x => if x.sid == some sid then
          { x with post := p, url := u, comment := cm } else x) d = d := by simp [hmatch]
      exact hfd ▸ List.mem_map_of_mem _ hd
  · exact ⟨d, List.mem_append_left _ hd, hds⟩

theorem hasSid_incrementNumber {db : DB} {k : Nat} (h : hasSid db k) :
    hasSid (incrementNumber db) k := h

theorem hasSid_of_check_upload {db : DB} {k : Nat} {d : Doc} {tl : List Doc}
    (h : check_upload db k = d :: tl) : hasSid db k := by
  have hd : d ∈ check_upload db k := by rw [h]; exact List.mem_cons_self _ _
  simp only [check_upload, List.mem_filter, beq_iff_eq] at hd
  exact ⟨d, hd.1, hd.2⟩

theorem upsertEntry_of_hasSid {db : DB} {sid : Nat} {e : Entry} (h : hasSid db sid) :
    upsertEntry db sid e =
      { db with docs := db.docs.map (fun d => if d.sid == some sid then applyEntry e d else d) } := by
  obtain ⟨d, hd, hds⟩ := h
  simp only [upsertEntry]
  rw [if_pos]
  rw [List.any_eq_true]
  exact ⟨d, hd, by simp [hds]⟩

theorem upsertPost_of_hasSid {db : DB} {sid : Nat} {p u cm : Option String}
    (h : hasSid db sid) :
    upsertPost db sid p u cm =
      { db with docs := db.docs.map (fun d =>
          if d.sid == some sid then { d with post := p, url := u, comment := cm } else d) } := by
  obtain ⟨d, hd, hds⟩ := h
  simp only [upsertPost]
  rw [if_pos]
  rw [List.any_eq_true]
  exact ⟨d, hd, by simp [hds]⟩

@[simp] theorem upsertEntry_number (db : DB) (sid : Nat) (e : Entry) :
    (upsertEntry db sid e).number = db.number := by
  simp only [upsertEntry]
  split <;> rfl

@[simp] theorem upsertPost_number (db : DB) (sid : Nat) (p u cm : Option String) :
    (upsertPost db sid p u cm).number = db.number := by
  simp only [upsertPost]
  split <;> rfl

/-!
## Which state components each operation can touch
-/

theorem opCall_db {α : Type} {s : St} {r : Except Nat α} {ev : Except Nat α → Ev}
    {eo : Nat → PyErr} {d : α} : (opCall s r ev eo d).1.db = s.db := by
  simp only [opCall]
  split
  · rfl
  · split
    · rfl
    · cases r <;> rfl

theorem opCall_number {α : Type} {s : St} {r : Except Nat α} {ev : Except Nat α → Ev}
    {eo : Nat → PyErr} {d : α} : (opCall s r ev eo d).1.number = s.number := by
  simp only [opCall]
  split
  · rfl
  · split
    · rfl
    · cases r <;> rfl

theorem opRaise_db {s : St} {e : PyErr} : (opRaise s e).db = s.db := by
  simp only [opRaise]; split <;> rfl

theorem opRaise_number {s : St} {e : PyErr} : (opRaise s e).number = s.number := by
  simp only [opRaise]; split <;> rfl

theorem albumCreate_db {c : Clients} {t : Nat} {a : Album} {s : St} :
    (Album.create c t a s).1.db = s.db := by
  simp only [Album.create]
  split
  · rfl
  · split
    · exact opCall_db
    · split
      · exact opCall_db
      · rfl

theorem albumCreate_number {c : Clients} {t : Nat} {a : Album} {s : St} :
    (Album.create c t a s).1.number = s.number := by
  simp only [Album.create]
  split
  · rfl
  · split
    · exact opCall_number
    · split
      · exact opCall_number
      · rfl

theorem albumAdd_db {c : Clients} {t : Nat} {a : Album} {ids : List String} {s : St} :
    (Album.add c t a ids s).1.db = s.db := by
  simp only [Album.add]
  split
  · rfl
  · rw [opCall_db]
    split
    · exact albumCreate_db
    · rfl

theorem albumAdd_number {c : Clients} {t : Nat} {a : Album} {ids : List String} {s : St} :
    (Album.add c t a ids s).1.number = s.number := by
  simp only [Album.add]
  split
  · rfl
  · rw [opCall_number]
    split
    · exact albumCreate_number
    · rfl

theorem imgsUploadLoop_db {c : Clients} {t : Nat} {im : ImgurImagesM} {l : List String}
    {i : Nat} {acc : List String} {s : St} : (imgsUploadLoop c t im l i acc s).1.db = s.db := by
  induction l generalizing i acc s with
  | nil => rfl
  | cons e tl ih => rw [imgsUploadLoop, ih, opCall_db]

theorem imgsUploadLoop_number {c : Clients} {t : Nat} {im : ImgurImagesM} {l : List String}
    {i : Nat} {acc : List String} {s : St} :
    (imgsUploadLoop c t im l i acc s).1.number = s.number := by
  induction l generalizing i acc s with
  | nil => rfl
  | cons e tl ih => rw [imgsUploadLoop, ih, opCall_number]

theorem redditPost_upload_db {c : Clients} {sub : String} {t : Nat} {d : Doc}
    {link title post0 com0 : Option String} {s : St} :
    (redditPost_upload c sub t d link title post0 com0 s).1.db = s.db := by
  cases post0 with
  | none => simp only [redditPost_upload]; rw [opCall_db, opCall_db, opCall_db]
  | some p =>
    cases com0 with
    | none => simp only [redditPost_upload]; exact opRaise_db
    | some q => rfl

theorem redditPost_upload_number {c : Clients} {sub : String} {t : Nat} {d : Doc}
    {link title post0 com0 : Option String} {s : St} :
    (redditPost_upload c sub t d link title post0 com0 s).1.number = s.number := by
  cases post0 with
  | none => simp only [redditPost_upload]; rw [opCall_number, opCall_number, opCall_number]
  | some p =>
    cases com0 with
    | none => simp only [redditPost_upload]; exact opRaise_number
    | some q => rfl

/-!
## Trace extension
-/

/-- Execution from s to s' only appended events satisfying P. -/
def TraceP (s s' : St) (P : Ev → Prop) : Prop :=
  ∃ delta, s'.trace = s.trace ++ delta ∧ ∀ e ∈ delta, P e

theorem traceP_refl (s : St) (P : Ev → Prop) : TraceP s s P :=
  ⟨[], by simp, by simp⟩

theorem traceP_trans {s s' s'' : St} {P : Ev → Prop} (h1 : TraceP s s' P)
    (h2 : TraceP s' s'' P) : TraceP s s'' P := by
  obtain ⟨d1, hd1, hp1⟩ := h1
  obtain ⟨d2, hd2, hp2⟩ := h2
  refine ⟨d1 ++ d2, by rw [hd2, hd1, List.append_assoc], ?_⟩
  intro e he
  rcases List.mem_append.1 he with h | h
  · exact hp1 e h
  · exact hp2 e h

theorem traceP_mono {s s' : St} {P Q : Ev → Prop} (h : TraceP s s' P)
    (hpq : ∀ e, P e → Q e) : TraceP s s' Q := by
  obtain ⟨d1, hd1, hp1⟩ := h
  exact ⟨d1, hd1, fun e he => hpq e (hp1 e he)⟩

theorem opCall_traceP {α : Type} {s : St} {r : Except Nat α} {ev : Except Nat α → Ev}
    {eo : Nat → PyErr} {d : α} {P : Ev → Prop} (hev : P (ev r)) :
    TraceP s (opCall s r ev eo d).1 P := by
  simp only [opCall]
  split
  · exact traceP_refl _ _
  · split
    · exact traceP_refl _ _
    · cases r with
      | ok v => exact ⟨[ev (.ok v)], rfl, by simpa using hev⟩
      | error code => exact ⟨[ev (.error code)], rfl, by simpa using hev⟩

theorem opDb_traceP {s : St} {ev : Ev} {f : St → St} {P : Ev → Prop} (hev : P ev)
    (hf : ∀ s', (f s').trace = s'.trace) : TraceP s (opDb s ev f) P := by
  simp only [opDb]
  split
  · exact traceP_refl _ _
  · split
    · exact traceP_refl _ _
    · exact ⟨[ev], by rw [hf], by simpa using hev⟩

theorem opRaise_traceP {s : St} {e : PyErr} {P : Ev → Prop} : TraceP s (opRaise s e) P := by
  simp only [opRaise]
  split
  · exact traceP_refl _ _
  · exact traceP_refl _ _

@[simp] theorem tag_upload_from_url (s : Nat) (u : String) (r : Except Nat String) :
    Ev.tag (.upload_from_url s u r) = s := rfl

@[simp] theorem tag_album_add_images (s : Nat) (h : String) (ids : List String) :
    Ev.tag (.album_add_images s h ids) = s := rfl

@[simp] theorem tag_create_album (s : Nat) (cfg : AlbumCfg) (r : Except Nat (String × String)) :
    Ev.tag (.create_album s cfg r) = s := rfl

@[simp] theorem tag_get_album (s : Nat) (h : String) : Ev.tag (.get_album s h) = s := rfl

@[simp] theorem tag_submit (s : Nat) (t u : String) (r : Except Nat String) :
    Ev.tag (.submit s t u r) = s := rfl

@[simp] theorem tag_disable_inbox (s : Nat) (p : String) :
    Ev.tag (.disable_inbox s p) = s := rfl

@[simp] theorem tag_reply (s : Nat) (p b : String) (r : Except Nat String) :
    Ev.tag (.reply s p b r) = s := rfl

@[simp] theorem tag_db_upsert_entry (s : Nat) (e : Entry) :
    Ev.tag (.db_upsert_entry s e) = s := rfl

@[simp] theorem tag_db_upsert_post (s : Nat) (p u cm : Option String) :
    Ev.tag (.db_upsert_post s p u cm) = s := rfl

@[simp] theorem tag_db_increment (s : Nat) : Ev.tag (.db_increment s) = s := rfl

/-!
## Fuel and crash bookkeeping: an unbounded budget never kills the process
-/

theorem opCall_fuel_none {α : Type} {s : St} {r : Except Nat α} {ev : Except Nat α → Ev}
    {eo : Nat → PyErr} {d : α} (hf : s.fuel = none) :
    (opCall s r ev eo d).1.fuel = none ∧ (opCall s r ev eo d).1.crashed = s.crashed := by
  simp only [opCall, hf]
  split
  · exact ⟨hf, rfl⟩
  · cases r <;> simp

theorem opDb_fuel_none {s : St} {ev : Ev} {f : St → St} (hf : s.fuel = none)
    (hffuel : ∀ s', (f s').fuel = s'.fuel) (hfcr : ∀ s', (f s').crashed = s'.crashed) :
    (opDb s ev f).fuel = none ∧ (opDb s ev f).crashed = s.crashed := by
  simp only [opDb, hf]
  split
  · exact ⟨hf, rfl⟩
  · simp [hffuel, hfcr]

theorem opRaise_fuel (s : St) (e : PyErr) :
    (opRaise s e).fuel = s.fuel ∧ (opRaise s e).crashed = s.crashed := by
  simp only [opRaise]
  split <;> simp

theorem albumCreate_fuel_none {c : Clients} {t : Nat} {a : Album} {s : St}
    (hf : s.fuel = none) : (Album.create c t a s).1.fuel = none ∧
      (Album.create c t a s).1.crashed = s.crashed := by
  simp only [Album.create]
  split
  · exact ⟨hf, rfl⟩
  · split
    · exact opCall_fuel_none hf
    · split
      · exact opCall_fuel_none hf
      · exact ⟨hf, rfl⟩

theorem albumAdd_fuel_none {c : Clients} {t : Nat} {a : Album} {ids : List String} {s : St}
    (hf : s.fuel = none) : (Album.add c t a ids s).1.fuel = none ∧
      (Album.add c t a ids s).1.crashed = s.crashed := by
  simp only [Album.add]
  split
  · exact ⟨hf, rfl⟩
  · split
    · refine ⟨(opCall_fuel_none (albumCreate_fuel_none hf).1).1, ?_⟩
      exact ((opCall_fuel_none (albumCreate_fuel_none hf).1).2).trans
        (albumCreate_fuel_none hf).2
    · exact opCall_fuel_none hf

theorem imgsUploadLoop_fuel_none {c : Clients} {t : Nat} {im : ImgurImagesM}
    {l : List String} {i : Nat} {acc : List String} {s : St} (hf : s.fuel = none) :
    (imgsUploadLoop c t im l i acc s).1.fuel = none ∧
      (imgsUploadLoop c t im l i acc s).1.crashed = s.crashed := by
  induction l generalizing i acc s with
  | nil => exact ⟨hf, rfl⟩
  | cons e tl ih =>
    rw [imgsUploadLoop]
    refine ⟨(ih (opCall_fuel_none hf).1).1, ?_⟩
    exact ((ih (opCall_fuel_none hf).1).2).trans (opCall_fuel_none hf).2

theorem redditPost_upload_fuel_none {c : Clients} {sub : String} {t : Nat} {d : Doc}
    {link title post0 com0 : Option String} {s : St} (hf : s.fuel = none) :
    (redditPost_upload c sub t d link title post0 com0 s).1.fuel = none ∧
      (redditPost_upload c sub t d link title post0 com0 s).1.crashed = s.crashed := by
  cases post0 with
  | none =>
    simp only [redditPost_upload]
    refine ⟨(opCall_fuel_none (opCall_fuel_none (opCall_fuel_none hf).1).1).1, ?_⟩
    exact ((opCall_fuel_none (opCall_fuel_none (opCall_fuel_none hf).1).1).2).trans
      (((opCall_fuel_none (opCall_fuel_none hf).1).2).trans (opCall_fuel_none hf).2)
  | some p =>
    cases com0 with
    | none =>
      simp only [redditPost_upload]
      exact ⟨(opRaise_fuel _ _).1.trans hf, (opRaise_fuel _ _).2⟩
    | some q => exact ⟨hf, rfl⟩

/-- A state whose trace equals the source state's is a trivial extension. -/
theorem traceP_of_eq {s s' : St} {P : Ev → Prop} (h : s'.trace = s.trace) :
    TraceP s s' P := ⟨[], by simp [h], by simp⟩

/-- Overwriting the in-memory album attribute does not touch the trace. -/
theorem traceP_set_allAlbum {s s' : St} {al : Album} {P : Ev → Prop} (h : TraceP s s' P) :
    TraceP s { s' with allAlbum := al } P := by
  obtain ⟨d, hd, hp⟩ := h
  exact ⟨d, hd, hp⟩

/-- The events Album.create can emit for its tag. -/
def albumEv (t : Nat) (e : Ev) : Prop :=
  (∃ cfg r, e = .create_album t cfg r) ∨ (∃ dh, e = .get_album t dh) ∨
    (∃ dh ids, e = .album_add_images t dh ids)

/-- The events the whole imgur stage can emit for one item. -/
def imgurItemEv (t : Nat) (n : Nat) (e : Ev) : Prop :=
  (∃ u r, e = .upload_from_url t u r) ∨ albumEv t e ∨
    (∃ en : Entry, e = .db_upsert_entry t en ∧ en.number = n ∧ en.sid = t ∧
      en.post = none) ∨ e = .db_increment t

theorem albumCreate_traceP {c : Clients} {t : Nat} {a : Album} {s : St} {P : Ev → Prop}
    (hP : ∀ e, albumEv t e → P e) : TraceP s (Album.create c t a s).1 P := by
  simp only [Album.create]
  split
  · exact traceP_refl _ _
  · split
    · exact opCall_traceP (hP _ (Or.inl ⟨_, _, rfl⟩))
    · split
      · exact opCall_traceP (hP _ (Or.inr (Or.inl ⟨_, rfl⟩)))
      · exact traceP_refl _ _

theorem albumAdd_traceP {c : Clients} {t : Nat} {a : Album} {ids : List String} {s : St}
    {P : Ev → Prop} (hP : ∀ e, albumEv t e → P e) :
    TraceP s (Album.add c t a ids s).1 P := by
  simp only [Album.add]
  split
  · exact traceP_refl _ _
  · split
    · exact traceP_trans (albumCreate_traceP hP)
        (opCall_traceP (hP _ (Or.inr (Or.inr ⟨_, _, rfl⟩))))
    · exact opCall_traceP (hP _ (Or.inr (Or.inr ⟨_, _, rfl⟩)))

theorem imgsUploadLoop_traceP {c : Clients} {t : Nat} {im : ImgurImagesM} {l : List String}
    {i : Nat} {acc : List String} {s : St} {P : Ev → Prop}
    (hP : ∀ u r, P (.upload_from_url t u r)) :
    TraceP s (imgsUploadLoop c t im l i acc s).1 P := by
  induction l generalizing i acc s with
  | nil => exact traceP_refl _ _
  | cons e tl ih =>
    rw [imgsUploadLoop]
    exact traceP_trans (opCall_traceP (hP _ _)) ih

/-- The db_entry dictionary built by to_imgur_item_pre carries the item's
sid, a null post, the cleaned text and the number attribute read at the
start of the iteration. -/
theorem to_imgur_item_pre_entry {c : Clients} {ts : TweetStatus} {s : St} :
    (to_imgur_item_pre c ts s).2.sid = ts.sid ∧ (to_imgur_item_pre c ts s).2.post = none ∧
      (to_imgur_item_pre c ts s).2.number = s.number ∧
      (to_imgur_item_pre c ts s).2.raw = ts.text := by
  simp only [to_imgur_item_pre]
  refine ⟨?_, ?_, ?_, ?_⟩ <;> (split <;> first | rfl | (split <;> rfl))

/-- A client-call-only segment of execution: the store and the counter
attribute are untouched, and with an unbounded budget the process is not
killed. -/
def Seg (s s' : St) : Prop :=
  s'.db = s.db ∧ s'.number = s.number ∧
    (s.fuel = none → s'.fuel = none ∧ s'.crashed = s.crashed)

theorem seg_refl (s : St) : Seg s s := ⟨rfl, rfl, fun _ => ⟨by assumption, rfl⟩⟩

theorem seg_trans {s s' s'' : St} (h1 : Seg s s') (h2 : Seg s' s'') : Seg s s'' := by
  refine ⟨h2.1.trans h1.1, h2.2.1.trans h1.2.1, fun hf => ?_⟩
  obtain ⟨hfa, hca⟩ := h1.2.2 hf
  obtain ⟨hfb, hcb⟩ := h2.2.2 hfa
  exact ⟨hfb, hcb.trans hca⟩

theorem seg_set_allAlbum {s s' : St} {al : Album} (h : Seg s s') :
    Seg s { s' with allAlbum := al } := h

theorem opCall_seg {α : Type} {s : St} {r : Except Nat α} {ev : Except Nat α → Ev}
    {eo : Nat → PyErr} {d : α} : Seg s (opCall s r ev eo d).1 :=
  ⟨opCall_db, opCall_number, fun hf => opCall_fuel_none hf⟩

theorem opRaise_seg {s : St} {e : PyErr} : Seg s (opRaise s e) :=
  ⟨opRaise_db, opRaise_number, fun hf => ⟨(opRaise_fuel s e).1.trans hf, (opRaise_fuel s e).2⟩⟩

theorem albumCreate_seg {c : Clients} {t : Nat} {a : Album} {s : St} :
    Seg s (Album.create c t a s).1 :=
  ⟨albumCreate_db, albumCreate_number, fun hf => albumCreate_fuel_none hf⟩

theorem albumAdd_seg {c : Clients} {t : Nat} {a : Album} {ids : List String} {s : St} :
    Seg s (Album.add c t a ids s).1 :=
  ⟨albumAdd_db, albumAdd_number, fun hf => albumAdd_fuel_none hf⟩

theorem imgsUploadLoop_seg {c : Clients} {t : Nat} {im : ImgurImagesM} {l : List String}
    {i : Nat} {acc : List String} {s : St} : Seg s (imgsUploadLoop c t im l i acc s).1 :=
  ⟨imgsUploadLoop_db, imgsUploadLoop_number, fun hf => imgsUploadLoop_fuel_none hf⟩

theorem redditPost_upload_seg {c : Clients} {sub : String} {t : Nat} {d : Doc}
    {link title post0 com0 : Option String} {s : St} :
    Seg s (redditPost_upload c sub t d link title post0 com0 s).1 :=
  ⟨redditPost_upload_db, redditPost_upload_number, fun hf => redditPost_upload_fuel_none hf⟩

/-- The pre-database part of an imgur iteration only calls clients. -/
theorem to_imgur_item_pre_seg {c : Clients} {ts : TweetStatus} {s : St} :
    Seg s (to_imgur_item_pre c ts s).1 := by
  simp only [to_imgur_item_pre]
  have hs1 : ∀ r1 : St × List String, Seg s r1.1 →
      Seg s (if r1.2.isEmpty then opRaise r1.1 .indexError else r1.1) := by
    intro r1 h
    split
    · exact seg_trans h opRaise_seg
    · exact h
  have h2 := hs1 (imgsUploadLoop c ts.sid
    { name := ts.name, screen_name := ts.screen_name, body := ts.text, url := ts.url,
      date := ts.date, media := ts.media, album := none, number := s.number }
    ts.media 0 [] s) imgsUploadLoop_seg
  split
  · exact seg_trans (seg_trans (seg_set_allAlbum (seg_trans h2 albumAdd_seg))
      albumCreate_seg) opRaise_seg
  · split
    · exact seg_set_allAlbum (seg_trans h2 albumAdd_seg)
    · exact seg_set_allAlbum (seg_trans h2 albumAdd_seg)

/-- Raising always leaves a halted state. -/
theorem opRaise_halted_result (s : St) (e : PyErr) : (opRaise s e).halted = true := by
  simp only [opRaise]
  split
  · assumption
  · simp [St.halted]

/-- The imgs list of the built db_entry is the list of ids the upload loop
returned. -/
theorem to_imgur_item_pre_imgs_eq {c : Clients} {ts : TweetStatus} {s : St} :
    (to_imgur_item_pre c ts s).2.imgs = (imgsUploadLoop c ts.sid
      { name := ts.name, screen_name := ts.screen_name, body := ts.text, url := ts.url,
        date := ts.date, media := ts.media, album := none, number := s.number }
      ts.media 0 [] s).2 := by
  simp only [to_imgur_item_pre]
  split <;> first | rfl | (split <;> rfl)

/-- When the upload loop produced no ids, the imgs subscript raises, so
the iteration ends halted: an empty imgs list never reaches the upsert. -/
theorem to_imgur_item_pre_empty_halted {c : Clients} {ts : TweetStatus} {s : St}
    (h : (to_imgur_item_pre c ts s).2.imgs = []) :
    (to_imgur_item_pre c ts s).1.halted = true := by
  rw [to_imgur_item_pre_imgs_eq] at h
  have hisEmpty : (imgsUploadLoop c ts.sid
      { name := ts.name, screen_name := ts.screen_name, body := ts.text, url := ts.url,
        date := ts.date, media := ts.media, album := none, number := s.number }
      ts.media 0 [] s).2.isEmpty = true := by simp [h]
  have h1 : (opRaise (imgsUploadLoop c ts.sid
      { name := ts.name, screen_name := ts.screen_name, body := ts.text, url := ts.url,
        date := ts.date, media := ts.media, album := none, number := s.number }
      ts.media 0 [] s).1 .indexError).halted = true := opRaise_halted_result _ _
  simp only [to_imgur_item_pre, hisEmpty, if_true]
  rw [albumAdd_halted h1]
  split
  · exact opRaise_halted_result _ _
  · split
    · exact h1
    · exact h1

/-- Every event the pre-database part appends is an upload or album event
of the item. -/
theorem to_imgur_item_pre_traceP {c : Clients} {ts : TweetStatus} {s : St} :
    TraceP s (to_imgur_item_pre c ts s).1
      (fun e => (∃ u r, e = .upload_from_url ts.sid u r) ∨ albumEv ts.sid e) := by
  simp only [to_imgur_item_pre]
  have hup : ∀ (u : String) (r : Except Nat String),
      (fun e => (∃ u r, e = Ev.upload_from_url ts.sid u r) ∨ albumEv ts.sid e)
        (.upload_from_url ts.sid u r) :=
    fun u r => Or.inl ⟨u, r, rfl⟩
  have halb : ∀ e, albumEv ts.sid e →
      (∃ u r, e = Ev.upload_from_url ts.sid u r) ∨ albumEv ts.sid e :=
    fun e he => Or.inr he
  have hs1 : ∀ r1 : St × List String,
      TraceP s r1.1 (fun e => (∃ u r, e = Ev.upload_from_url ts.sid u r) ∨ albumEv ts.sid e) →
      TraceP s (if r1.2.isEmpty then opRaise r1.1 .indexError else r1.1)
        (fun e => (∃ u r, e = Ev.upload_from_url ts.sid u r) ∨ albumEv ts.sid e) := by
    intro r1 h
    split
    · exact traceP_trans h opRaise_traceP
    · exact h
  have h2 := hs1 (imgsUploadLoop c ts.sid
    { name := ts.name, screen_name := ts.screen_name, body := ts.text, url := ts.url,
      date := ts.date, media := ts.media, album := none, number := s.number }
    ts.media 0 [] s) (imgsUploadLoop_traceP hup)
  split
  · exact traceP_trans (traceP_trans (traceP_set_allAlbum (traceP_trans h2
      (albumAdd_traceP halb))) (albumCreate_traceP halb)) opRaise_traceP
  · split
    · exact traceP_set_allAlbum (traceP_trans h2 (albumAdd_traceP halb))
    · exact traceP_set_allAlbum (traceP_trans h2 (albumAdd_traceP halb))

theorem opDb_crash {s : St} {ev : Ev} {f : St → St} (hh : s.halted = false)
    (hf : s.fuel = some 0) : opDb s ev f = { s with crashed := true } := by
  simp [opDb, hh, hf]

theorem opDb_go_some {s : St} {ev : Ev} {f : St → St} {n : Nat} (hh : s.halted = false)
    (hf : s.fuel = some (n + 1)) :
    opDb s ev f = f { pushEv s ev with fuel := some n } := by
  obtain ⟨db, al, nm, tr, fu, cr, er⟩ := s
  simp only [St.halted] at hh
  simp only at hf
  subst hf
  simp [opDb, St.halted, pushEv, hh]

/-- The media-stage upsert numbers recorded in an appended trace
segment. -/
theorem entryNums_append (t1 t2 : List Ev) :
    entryNums (t1 ++ t2) = entryNums t1 ++ entryNums t2 := by
  simp [entryNums, List.filterMap_append]

/-- Upload and album events record no media-stage upsert number. -/
theorem entryNums_nil_of_pre {delta : List Ev} {t : Nat}
    (h : ∀ e ∈ delta, (∃ u r, e = .upload_from_url t u r) ∨ albumEv t e) :
    entryNums delta = [] := by
  induction delta with
  | nil => rfl
  | cons e tl ih =>
    have he := h e (List.mem_cons_self _ _)
    have htl := ih (fun x hx => h x (List.mem_cons_of_mem _ hx))
    rcases he with ⟨u, r, rfl⟩ | he
    · simpa [entryNums] using htl
    · rcases he with ⟨cfg, r, rfl⟩ | ⟨dh, rfl⟩ | ⟨dh, ids, rfl⟩ <;>
        simpa [entryNums] using htl

/-- Everything one imgur iteration can do to the persistent state: either
it halts before the upsert and the store, counter attribute and recorded
upsert numbers are untouched; or the finished db_entry (with the item's
sid, nonempty imgs, null post and the current number attribute) is
upserted, after which the process either dies before the increment or the
counter row is incremented and reloaded into the number attribute. -/
theorem to_imgur_item_master {c : Clients} {ts : TweetStatus} {s : St} :
    ((to_imgur_item c ts s).1.db = s.db ∧ (to_imgur_item c ts s).1.number = s.number ∧
      entryNums (to_imgur_item c ts s).1.trace = entryNums s.trace ∧
      (to_imgur_item c ts s).1.halted = true) ∨
    (∃ e : Entry, e.sid = ts.sid ∧ e.imgs ≠ [] ∧ e.post = none ∧ e.number = s.number ∧
      entryNums (to_imgur_item c ts s).1.trace = entryNums s.trace ++ [s.number] ∧
      (((to_imgur_item c ts s).1.db = upsertEntry s.db ts.sid e ∧
        (to_imgur_item c ts s).1.number = s.number ∧ s.fuel ≠ none) ∨
       ((to_imgur_item c ts s).1.db = incrementNumber (upsertEntry s.db ts.sid e) ∧
        (to_imgur_item c ts s).1.number = s.db.number + 1))) := by
  obtain ⟨delta, hdelta, hdev⟩ :=
    @to_imgur_item_pre_traceP c ts s
  have hnums0 : entryNums (to_imgur_item_pre c ts s).1.trace = entryNums s.trace := by
    rw [hdelta, entryNums_append, entryNums_nil_of_pre hdev, List.append_nil]
  have hseg := @to_imgur_item_pre_seg c ts s
  simp only [to_imgur_item]
  by_cases hh : (to_imgur_item_pre c ts s).1.halted = true
  · left
    rw [opDb_halted (by rw [opDb_halted hh]; exact hh), opDb_halted hh]
    exact ⟨hseg.1, hseg.2.1, hnums0, hh⟩
  · have hh' : (to_imgur_item_pre c ts s).1.halted = false := by
      cases hx : (to_imgur_item_pre c ts s).1.halted
      · rfl
      · exact absurd hx hh
    have himgs : (to_imgur_item_pre c ts s).2.imgs ≠ [] := by
      intro hemp
      exact hh (to_imgur_item_pre_empty_halted hemp)
    have hent := @to_imgur_item_pre_entry c ts s
    cases hfp : (to_imgur_item_pre c ts s).1.fuel with
    | none =>
      rw [opDb_go hh' hfp]
      rw [opDb_go (by simp [St.halted]; simpa [St.halted] using hh') (by simp [hfp])]
      right
      refine ⟨(to_imgur_item_pre c ts s).2, hent.1, himgs, hent.2.1, hent.2.2.1, ?_, Or.inr ⟨?_, ?_⟩⟩
      · simp [entryNums_append, entryNums, hent.2.2.1]
        simpa [entryNums] using hnums0
      · simp [hseg.1]
      · simp [hseg.1, incrementNumber, hseg.2.1]
    | some n =>
      cases n with
      | zero =>
        left
        rw [opDb_crash hh' hfp, opDb_halted (by simp [St.halted])]
        exact ⟨hseg.1, hseg.2.1, hnums0, by simp [St.halted]⟩
      | succ m =>
        rw [opDb_go_some hh' hfp]
        cases m with
        | zero =>
          rw [opDb_crash (by simpa [St.halted] using hh') (by simp)]
          right
          refine ⟨(to_imgur_item_pre c ts s).2, hent.1, himgs, hent.2.1, hent.2.2.1, ?_,
            Or.inl ⟨?_, ?_, ?_⟩⟩
          · simp [entryNums_append, entryNums, hent.2.2.1]
            simpa [entryNums] using hnums0
          · simp [hseg.1]
          · simp [hseg.2.1]
          · intro hfn
            rw [(hseg.2.2 hfn).1] at hfp
            exact Option.noConfusion hfp
        | succ k =>
          rw [opDb_go_some (by simpa [St.halted] using hh') rfl]
          right
          refine ⟨(to_imgur_item_pre c ts s).2, hent.1, himgs, hent.2.1, hent.2.2.1, ?_,
            Or.inr ⟨?_, ?_⟩⟩
          · simp [entryNums_append, entryNums, hent.2.2.1]
            simpa [entryNums] using hnums0
          · simp [hseg.1]
          · simp [hseg.1, incrementNumber, hseg.2.1]

/-- The events one post-stage iteration can emit for its item. -/
def redditItemEv (t : Nat) (e : Ev) : Prop :=
  (∃ ti u r, e = .submit t ti u r) ∨ (∃ p, e = .disable_inbox t p) ∨
    (∃ p b r, e = .reply t p b r) ∨ (∃ p u cm, e = .db_upsert_post t p u cm)

theorem redditPost_upload_traceP {c : Clients} {sub : String} {t : Nat} {d : Doc}
    {link title post0 com0 : Option String} {s : St} {P : Ev → Prop}
    (hsub : ∀ ti u r, P (.submit t ti u r)) (hdis : ∀ p, P (.disable_inbox t p))
    (hrep : ∀ p b r, P (.reply t p b r)) :
    TraceP s (redditPost_upload c sub t d link title post0 com0 s).1 P := by
  cases post0 with
  | none =>
    simp only [redditPost_upload]
    exact traceP_trans (traceP_trans (opCall_traceP (hsub _ _ _))
      (opCall_traceP (hdis _))) (opCall_traceP (hrep _ _ _))
  | some p =>
    cases com0 with
    | none => exact opRaise_traceP
    | some q => exact traceP_refl _ _

/-- Every event one post-stage iteration appends is a reddit event of the
document's sid. -/
theorem to_reddit_item_traceP {c : Clients} {sub : String} {d : Doc} {s : St} :
    TraceP s (to_reddit_item c sub d s).1 (fun e => ∃ k, d.sid = some k ∧ redditItemEv k e) := by
  cases hs : d.sid with
  | none => simp only [to_reddit_item, hs]; exact opRaise_traceP
  | some k =>
    simp only [to_reddit_item, hs]
    have hP : ∀ e, redditItemEv k e → ∃ j, (some k : Option Nat) = some j ∧ redditItemEv j e :=
      fun e he => ⟨k, rfl, he⟩
    have h1 : TraceP s (redditPost_upload c sub k d d.url d.title d.post d.com s).1
        (fun e => ∃ j, (some k : Option Nat) = some j ∧ redditItemEv j e) :=
      redditPost_upload_traceP (fun ti u r => hP _ (Or.inl ⟨ti, u, r, rfl⟩))
        (fun p => hP _ (Or.inr (Or.inl ⟨p, rfl⟩)))
        (fun p b r => hP _ (Or.inr (Or.inr (Or.inl ⟨p, b, r, rfl⟩))))
    split
    · exact h1
    · exact traceP_trans h1 (opDb_traceP (hP _ (Or.inr (Or.inr (Or.inr ⟨_, _, _, rfl⟩))))
        (fun s' => rfl))

/-- RedditPost.upload never returns a null post reference: either the
submit branch sets it or it was already set. -/
theorem redditPost_upload_res_isSome {c : Clients} {sub : String} {t : Nat} {d : Doc}
    {link title post0 com0 : Option String} {s : St} :
    (redditPost_upload c sub t d link title post0 com0 s).2.1.isSome = true := by
  cases post0 with
  | none => simp [redditPost_upload]
  | some p =>
    cases com0 with
    | none => simp [redditPost_upload]
    | some q => simp [redditPost_upload]

/-- Everything one post-stage iteration can do to the persistent state:
either nothing (and then the iteration ended halted), or a single upsert
of the post, url and comment keys at the document's sid. -/
theorem to_reddit_item_master {c : Clients} {sub : String} {d : Doc} {s : St} :
    ((to_reddit_item c sub d s).1.db = s.db ∧ (to_reddit_item c sub d s).1.number = s.number ∧
      (to_reddit_item c sub d s).1.halted = true) ∨
    (∃ k p u cm, d.sid = some k ∧
      (to_reddit_item c sub d s).1.db = upsertPost s.db k p u cm ∧
      (to_reddit_item c sub d s).1.number = s.number) := by
  cases hs : d.sid with
  | none =>
    simp only [to_reddit_item, hs]
    exact Or.inl ⟨opRaise_db, opRaise_number, opRaise_halted_result _ _⟩
  | some k =>
    simp only [to_reddit_item, hs]
    split
    · next hcon =>
      have h2 : (redditPost_upload c sub k d d.url d.title d.post d.com s).2.1.isSome = true :=
        redditPost_upload_res_isSome
      rw [hcon.1] at h2
      exact absurd h2 (by simp)
    · set q := redditPost_upload c sub k d d.url d.title d.post d.com s with hq
      by_cases hh : q.1.halted = true
      · rw [opDb_halted hh]
        exact Or.inl ⟨redditPost_upload_db, redditPost_upload_number, hh⟩
      · have hh' : q.1.halted = false := by
          cases hx : q.1.halted
          · rfl
          · exact absurd hx hh
        cases hfp : q.1.fuel with
        | none =>
          rw [opDb_go hh' hfp]
          refine Or.inr ⟨k, q.2.1, d.url, q.2.2, rfl, ?_, ?_⟩
          · simp [hq, redditPost_upload_db]
          · simp [hq, redditPost_upload_number]
        | some n =>
          cases n with
          | zero =>
            rw [opDb_crash hh' hfp]
            exact Or.inl ⟨redditPost_upload_db, redditPost_upload_number, by
              simp [St.halted]⟩
          | succ m =>
            rw [opDb_go_some hh' hfp]
            refine Or.inr ⟨k, q.2.1, d.url, q.2.2, rfl, ?_, ?_⟩
            · simp [hq, redditPost_upload_db]
            · simp [hq, redditPost_upload_number]

/-- Every event to_imgur_item appends is one of the item's imgur-stage
events. -/
theorem to_imgur_item_traceP {c : Clients} {ts : TweetStatus} {s : St} :
    TraceP s (to_imgur_item c ts s).1 (imgurItemEv ts.sid s.number) := by
  simp only [to_imgur_item]
  refine traceP_trans (traceP_trans ?_ (opDb_traceP ?_ ?_)) (opDb_traceP ?_ ?_)
  rotate_left
  · exact Or.inr (Or.inr (Or.inl ⟨_, rfl, to_imgur_item_pre_entry.2.2.1,
      to_imgur_item_pre_entry.1, to_imgur_item_pre_entry.2.1⟩))
  · intro s'; rfl
  · exact Or.inr (Or.inr (Or.inr rfl))
  · intro s'; rfl
  exact traceP_mono to_imgur_item_pre_traceP (fun e he => by
    rcases he with h | h
    · exact Or.inl h
    · exact Or.inr (Or.inl h))

/-!
## Event kind bookkeeping
-/

theorem isSubmitEv_tag {k : Nat} {e : Ev} (h : isSubmitEv k e = true) : Ev.tag e = k := by
  cases e <;> simp [isSubmitEv] at h <;> simp [Ev.tag, h]

theorem isUploadEv_tag {k : Nat} {e : Ev} (h : isUploadEv k e = true) : Ev.tag e = k := by
  cases e <;> simp [isUploadEv] at h <;> simp [Ev.tag, h]

theorem isReplyEv_tag {k : Nat} {e : Ev} (h : isReplyEv k e = true) : Ev.tag e = k := by
  cases e <;> simp [isReplyEv] at h <;> simp [Ev.tag, h]

theorem imgurItemEv_tag {t n : Nat} {e : Ev} (h : imgurItemEv t n e) : Ev.tag e = t := by
  rcases h with ⟨u, r, rfl⟩ | h | ⟨en, rfl, _⟩ | rfl
  · rfl
  · rcases h with ⟨cfg, r, rfl⟩ | ⟨dh, rfl⟩ | ⟨dh, ids, rfl⟩ <;> rfl
  · rfl
  · rfl

theorem imgurItemEv_not_submit {t n : Nat} {e : Ev} (h : imgurItemEv t n e) (j : Nat) :
    isSubmitEv j e = false := by
  rcases h with ⟨u, r, rfl⟩ | h | ⟨en, rfl, _⟩ | rfl
  · rfl
  · rcases h with ⟨cfg, r, rfl⟩ | ⟨dh, rfl⟩ | ⟨dh, ids, rfl⟩ <;> rfl
  · rfl
  · rfl

theorem imgurItemEv_not_reply {t n : Nat} {e : Ev} (h : imgurItemEv t n e) (j : Nat) :
    isReplyEv j e = false := by
  rcases h with ⟨u, r, rfl⟩ | h | ⟨en, rfl, _⟩ | rfl
  · rfl
  · rcases h with ⟨cfg, r, rfl⟩ | ⟨dh, rfl⟩ | ⟨dh, ids, rfl⟩ <;> rfl
  · rfl
  · rfl

theorem redditItemEv_tag {k : Nat} {e : Ev} (h : redditItemEv k e) : Ev.tag e = k := by
  rcases h with ⟨ti, u, r, rfl⟩ | ⟨p, rfl⟩ | ⟨p, b, r, rfl⟩ | ⟨p, u, cm, rfl⟩ <;> rfl

theorem redditItemEv_not_upload {k : Nat} {e : Ev} (h : redditItemEv k e) (j : Nat) :
    isUploadEv j e = false := by
  rcases h with ⟨ti, u, r, rfl⟩ | ⟨p, rfl⟩ | ⟨p, b, r, rfl⟩ | ⟨p, u, cm, rfl⟩ <;> rfl

theorem redditItemEv_not_entry {k : Nat} {e : Ev} (h : redditItemEv k e) :
    entryNums [e] = [] := by
  rcases h with ⟨ti, u, r, rfl⟩ | ⟨p, rfl⟩ | ⟨p, b, r, rfl⟩ | ⟨p, u, cm, rfl⟩ <;> rfl

/-- Counting helpers: a trace extension whose events all fail a kind
predicate adds nothing to that count. -/
theorem filter_count_nil {delta : List Ev} {p : Ev → Bool} (h : ∀ e ∈ delta, p e = false) :
    (delta.filter p).length = 0 := by
  induction delta with
  | nil => rfl
  | cons e tl ih =>
    simp only [List.filter_cons, h e (List.mem_cons_self _ _)]
    exact ih (fun x hx => h x (List.mem_cons_of_mem _ hx))

theorem submitCount_append (t1 t2 : List Ev) (k : Nat) :
    submitCount k (t1 ++ t2) = submitCount k t1 + submitCount k t2 := by
  simp [submitCount, List.filter_append]

theorem uploadCount_append (t1 t2 : List Ev) (k : Nat) :
    uploadCount k (t1 ++ t2) = uploadCount k t1 + uploadCount k t2 := by
  simp [uploadCount, List.filter_append]

theorem replyCount_append (t1 t2 : List Ev) (k : Nat) :
    replyCount k (t1 ++ t2) = replyCount k t1 + replyCount k t2 := by
  simp [replyCount, List.filter_append]

/-!
## Loop-level locality
-/

theorem not_halted_of_to_imgur_item {c : Clients} {ts : TweetStatus} {s : St}
    (h : (to_imgur_item c ts s).1.halted = false) : s.halted = false := by
  cases hx : s.halted
  · rfl
  · rw [to_imgur_item_halted hx] at h
    rw [h] at hx
    exact Bool.noConfusion hx

theorem not_halted_of_to_imgur {c : Clients} {l : List TweetStatus} {s : St}
    (h : (to_imgur c l s).1.halted = false) : s.halted = false := by
  cases hx : s.halted
  · rfl
  · rw [to_imgur_halted hx] at h
    rw [h] at hx
    exact Bool.noConfusion hx

theorem not_halted_of_to_reddit_item {c : Clients} {sub : String} {d : Doc} {s : St}
    (h : (to_reddit_item c sub d s).1.halted = false) : s.halted = false := by
  cases hx : s.halted
  · rfl
  · rw [to_reddit_item_halted hx] at h
    rw [h] at hx
    exact Bool.noConfusion hx

theorem not_halted_of_to_reddit {c : Clients} {sub : String} {l : List Doc} {s : St}
    (h : (to_reddit c sub l s).1.halted = false) : s.halted = false := by
  cases hx : s.halted
  · rfl
  · rw [to_reddit_halted hx] at h
    rw [h] at hx
    exact Bool.noConfusion hx

/-- Every event the imgur stage appends belongs to one of its statuses
and is never a reddit submit or reply. -/
theorem to_imgur_traceP {c : Clients} {l : List TweetStatus} {s : St} :
    TraceP s (to_imgur c l s).1 (fun e => Ev.tag e ∈ l.map TweetStatus.sid ∧
      (∀ j, isSubmitEv j e = false) ∧ (∀ j, isReplyEv j e = false)) := by
  induction l generalizing s with
  | nil => exact traceP_refl _ _
  | cons ts tl ih =>
    simp only [to_imgur]
    refine traceP_trans (traceP_mono to_imgur_item_traceP ?_) (traceP_mono ih ?_)
    · intro e he
      exact ⟨by rw [imgurItemEv_tag he]; exact List.mem_cons_self _ _,
        imgurItemEv_not_submit he, imgurItemEv_not_reply he⟩
    · intro e he
      exact ⟨List.mem_cons_of_mem _ he.1, he.2.1, he.2.2⟩

/-- Every event the post stage appends belongs to one of its documents
and is never an imgur upload. -/
theorem to_reddit_traceP {c : Clients} {sub : String} {l : List Doc} {s : St} :
    TraceP s (to_reddit c sub l s).1 (fun e => Ev.tag e ∈ l.filterMap Doc.sid ∧
      (∀ j, isUploadEv j e = false) ∧ entryNums [e] = []) := by
  induction l generalizing s with
  | nil => exact traceP_refl _ _
  | cons d tl ih =>
    simp only [to_reddit]
    refine traceP_trans (traceP_mono to_reddit_item_traceP ?_) (traceP_mono ih ?_)
    · intro e he
      obtain ⟨k, hk, hev⟩ := he
      refine ⟨by rw [redditItemEv_tag hev]; simp [List.filterMap_cons, hk], ?_, ?_⟩
      · exact redditItemEv_not_upload hev
      · exact redditItemEv_not_entry hev
    · intro e he
      refine ⟨?_, he.2.1, he.2.2⟩
      rcases List.mem_filterMap.1 he.1 with ⟨d', hd', hds⟩
      exact List.mem_filterMap.2 ⟨d', List.mem_cons_of_mem _ hd', hds⟩

/-- The imgur stage leaves documents of other sids alone. -/
theorem to_imgur_check_ne {c : Clients} {l : List TweetStatus} {s : St} {k : Nat}
    (hk : k ∉ l.map TweetStatus.sid) :
    check_upload (to_imgur c l s).1.db k = check_upload s.db k := by
  induction l generalizing s with
  | nil => rfl
  | cons ts tl ih =>
    simp only [to_imgur]
    have hk1 : k ≠ ts.sid := by
      intro h
      exact hk (by simp [h])
    have hk2 : k ∉ tl.map TweetStatus.sid := by
      intro h
      exact hk (by simp [List.mem_cons_of_mem, h])
    rw [ih hk2]
    rcases @to_imgur_item_master c ts s with ⟨hdb, _⟩ | ⟨e, hes, _, _, _, _, hcase⟩
    · rw [hdb]
    · rcases hcase with ⟨hdb, _⟩ | ⟨hdb, _⟩
      · rw [hdb, check_upload_upsertEntry_ne hk1 hes]
      · rw [hdb, check_upload_incrementNumber, check_upload_upsertEntry_ne hk1 hes]

/-- The post stage leaves documents of other sids alone. -/
theorem to_reddit_check_ne {c : Clients} {sub : String} {l : List Doc} {s : St} {k : Nat}
    (hk : k ∉ l.filterMap Doc.sid) :
    check_upload (to_reddit c sub l s).1.db k = check_upload s.db k := by
  induction l generalizing s with
  | nil => rfl
  | cons d tl ih =>
    simp only [to_reddit]
    have hk2 : k ∉ tl.filterMap Doc.sid := by
      intro h
      rcases List.mem_filterMap.1 h with ⟨d', hd', hds⟩
      exact hk (List.mem_filterMap.2 ⟨d', List.mem_cons_of_mem _ hd', hds⟩)
    rw [ih hk2]
    rcases @to_reddit_item_master c sub d s with ⟨hdb, _⟩ |
      ⟨k', p, u, cm, hks, hdb, _⟩
    · rw [hdb]
    · have hk1 : k ≠ k' := by
        intro h
        exact hk (List.mem_filterMap.2 ⟨d, List.mem_cons_self _ _, by rw [hks, h]⟩)
      rw [hdb, check_upload_upsertPost_ne hk1]

/-- The imgur stage never removes a stored sid. -/
theorem to_imgur_hasSid {c : Clients} {l : List TweetStatus} {s : St} {k : Nat}
    (h : hasSid s.db k) : hasSid (to_imgur c l s).1.db k := by
  induction l generalizing s with
  | nil => exact h
  | cons ts tl ih =>
    simp only [to_imgur]
    refine ih ?_
    rcases @to_imgur_item_master c ts s with ⟨hdb, _⟩ |
      ⟨e, hes, _, _, _, _, hcase⟩
    · rw [hdb]; exact h
    · rcases hcase with ⟨hdb, _⟩ | ⟨hdb, _⟩
      · rw [hdb]; exact hasSid_upsertEntry h hes
      · rw [hdb]; exact hasSid_incrementNumber (hasSid_upsertEntry h hes)

/-- The post stage never removes a stored sid. -/
theorem to_reddit_hasSid {c : Clients} {sub : String} {l : List Doc} {s : St} {k : Nat}
    (h : hasSid s.db k) : hasSid (to_reddit c sub l s).1.db k := by
  induction l generalizing s with
  | nil => exact h
  | cons d tl ih =>
    simp only [to_reddit]
    refine ih ?_
    rcases @to_reddit_item_master c sub d s with ⟨hdb, _⟩ |
      ⟨k', p, u, cm, _, hdb, _⟩
    · rw [hdb]; exact h
    · rw [hdb]; exact hasSid_upsertPost h

theorem to_imgur_item_hasSid {c : Clients} {ts : TweetStatus} {s : St} {k : Nat}
    (h : hasSid s.db k) : hasSid (to_imgur_item c ts s).1.db k := by
  rcases @to_imgur_item_master c ts s with ⟨hdb, _⟩ | ⟨e, hes, _, _, _, _, hcase⟩
  · rw [hdb]; exact h
  · rcases hcase with ⟨hdb, _⟩ | ⟨hdb, _⟩
    · rw [hdb]; exact hasSid_upsertEntry h hes
    · rw [hdb]; exact hasSid_incrementNumber (hasSid_upsertEntry h hes)

theorem to_reddit_item_hasSid {c : Clients} {sub : String} {d : Doc} {s : St} {k : Nat}
    (h : hasSid s.db k) : hasSid (to_reddit_item c sub d s).1.db k := by
  rcases @to_reddit_item_master c sub d s with ⟨hdb, _⟩ | ⟨k', p, u, cm, _, hdb, _⟩
  · rw [hdb]; exact h
  · rw [hdb]; exact hasSid_upsertPost h

/-- An upserted entry keyed by its own sid is afterwards stored. -/
theorem hasSid_upsertEntry_self {db : DB} {sid : Nat} {e : Entry} (he : e.sid = sid) :
    hasSid (upsertEntry db sid e) sid := by
  simp only [upsertEntry]
  split
  · next hany =>
    obtain ⟨d, hd, hds⟩ := List.any_eq_true.1 hany
    simp only [beq_iff_eq] at hds
    refine ⟨applyEntry e d, ?_, by simp [applyEntry, he]⟩
    have hfd : (fun x => if x.sid == some sid then applyEntry e x else x) d = applyEntry e d := by
      simp [hds]
    exact hfd ▸ List.mem_map_of_mem _ hd
  · exact ⟨entryDoc e, by simp, by simp [entryDoc, he]⟩

/-!
## The stored-document well-formedness invariant
-/

/-- Every stored document was written by the media stage first: it has a
sid key and a nonempty imgs list. -/
def DocsWF (db : DB) : Prop := ∀ d ∈ db.docs, d.sid.isSome ∧ d.imgs ≠ []

theorem docsWF_upsertEntry {db : DB} {sid : Nat} {e : Entry} (h : DocsWF db)
    (himgs : e.imgs ≠ []) : DocsWF (upsertEntry db sid e) := by
  intro d hd
  simp only [upsertEntry] at hd
  split at hd
  · rcases List.mem_map.1 hd with ⟨d', hd', rfl⟩
    split
    · exact ⟨by simp [applyEntry], by simp [applyEntry, himgs]⟩
    · exact h d' hd'
  · rcases List.mem_append.1 hd with h' | h'
    · exact h d h'
    · simp only [List.mem_singleton] at h'
      subst h'
      exact ⟨by simp [entryDoc], by simp [entryDoc, himgs]⟩

theorem docsWF_upsertPost {db : DB} {sid : Nat} {p u cm : Option String} (h : DocsWF db)
    (hs : hasSid db sid) : DocsWF (upsertPost db sid p u cm) := by
  rw [upsertPost_of_hasSid hs]
  intro d hd
  rcases List.mem_map.1 hd with ⟨d', hd', rfl⟩
  have := h d' hd'
  split
  · exact ⟨this.1, this.2⟩
  · exact this

theorem docsWF_incrementNumber {db : DB} (h : DocsWF db) : DocsWF (incrementNumber db) := h

theorem to_imgur_item_WF {c : Clients} {ts : TweetStatus} {s : St} (h : DocsWF s.db) :
    DocsWF (to_imgur_item c ts s).1.db := by
  rcases @to_imgur_item_master c ts s with ⟨hdb, _⟩ | ⟨e, _, himgs, _, _, _, hcase⟩
  · rw [hdb]; exact h
  · rcases hcase with ⟨hdb, _⟩ | ⟨hdb, _⟩
    · rw [hdb]; exact docsWF_upsertEntry h himgs
    · rw [hdb]; exact docsWF_incrementNumber (docsWF_upsertEntry h himgs)

theorem to_imgur_WF {c : Clients} {l : List TweetStatus} {s : St} (h : DocsWF s.db) :
    DocsWF (to_imgur c l s).1.db := by
  induction l generalizing s with
  | nil => exact h
  | cons ts tl ih =>
    simp only [to_imgur]
    exact ih (to_imgur_item_WF h)

theorem to_reddit_item_WF {c : Clients} {sub : String} {d : Doc} {s : St} (h : DocsWF s.db)
    (hd : ∀ k, d.sid = some k → hasSid s.db k) :
    DocsWF (to_reddit_item c sub d s).1.db := by
  rcases @to_reddit_item_master c sub d s with ⟨hdb, _⟩ | ⟨k, p, u, cm, hks, hdb, _⟩
  · rw [hdb]; exact h
  · rw [hdb]; exact docsWF_upsertPost h (hd k hks)

theorem to_reddit_WF {c : Clients} {sub : String} {l : List Doc} {s : St} (h : DocsWF s.db)
    (hl : ∀ d ∈ l, ∀ k, d.sid = some k → hasSid s.db k) :
    DocsWF (to_reddit c sub l s).1.db := by
  induction l generalizing s with
  | nil => exact h
  | cons d tl ih =>
    simp only [to_reddit]
    refine ih (to_reddit_item_WF h (hl d (List.mem_cons_self _ _))) ?_
    intro d' hd' k hk
    exact to_reddit_item_hasSid (hl d' (List.mem_cons_of_mem _ hd') k hk)

theorem to_imgur_item_doc {c : Clients} {ts : TweetStatus} {s : St} :
    (to_imgur_item c ts s).2 = entryDoc (to_imgur_item_pre c ts s).2 := rfl

/-- The documents the imgur stage hands to the post stage: one per
status, keyed by the status sid, with a null post and no com key. -/
theorem to_imgur_docs_shape {c : Clients} {l : List TweetStatus} {s : St} :
    ∀ d ∈ (to_imgur c l s).2, ∃ ts, ts ∈ l ∧ d.sid = some ts.sid ∧ d.post = none ∧
      d.com = none := by
  induction l generalizing s with
  | nil => intro d hd; exact absurd hd (List.not_mem_nil _)
  | cons ts tl ih =>
    intro d hd
    simp only [to_imgur, List.mem_cons] at hd
    rcases hd with rfl | hd
    · refine ⟨ts, List.mem_cons_self _ _, ?_, ?_, ?_⟩
      · rw [to_imgur_item_doc]
        simp [entryDoc, (@to_imgur_item_pre_entry c ts s).1]
      · rw [to_imgur_item_doc]
        simp [entryDoc, (@to_imgur_item_pre_entry c ts s).2.1]
      · rw [to_imgur_item_doc]
        rfl
    · obtain ⟨ts', hts', hrest⟩ := ih d hd
      exact ⟨ts', List.mem_cons_of_mem _ hts', hrest⟩

/-- If the imgur stage finished without halting, every document it hands
on has been durably upserted. -/
theorem to_imgur_produced_present {c : Clients} {l : List TweetStatus} {s : St}
    (hna : (to_imgur c l s).1.halted = false) :
    ∀ d ∈ (to_imgur c l s).2, ∀ k, d.sid = some k → hasSid (to_imgur c l s).1.db k := by
  induction l generalizing s with
  | nil => intro d hd; exact absurd hd (List.not_mem_nil _)
  | cons ts tl ih =>
    intro d hd k hk
    simp only [to_imgur, List.mem_cons] at hd ⊢
    have hna' : (to_imgur c tl (to_imgur_item c ts s).1).1.halted = false := by
      simpa [to_imgur] using hna
    rcases hd with rfl | hd
    · have hkts : k = ts.sid := by
        rw [to_imgur_item_doc] at hk
        have heq : (entryDoc (to_imgur_item_pre c ts s).2).sid = some ts.sid := by
          simp [entryDoc, (@to_imgur_item_pre_entry c ts s).1]
        rw [heq] at hk
        exact (Option.some_inj.1 hk).symm
      subst hkts
      have hitem : (to_imgur_item c ts s).1.halted = false := not_halted_of_to_imgur hna'
      rcases @to_imgur_item_master c ts s with ⟨_, _, _, hhal⟩ | ⟨e, hes, _, _, _, _, hcase⟩
      · rw [hhal] at hitem
        exact Bool.noConfusion hitem
      · have hpresent : hasSid (to_imgur_item c ts s).1.db ts.sid := by
          rcases hcase with ⟨hdb, _⟩ | ⟨hdb, _⟩
          · rw [hdb]; exact hasSid_upsertEntry_self hes
          · rw [hdb]; exact hasSid_incrementNumber (hasSid_upsertEntry_self hes)
        exact to_imgur_hasSid hpresent
    · exact ih hna' d hd k hk

/-!
## Classification lemmas
-/

/-- A status lands in the pending list exactly when it has media and its
first stored document has a null post key: the comment key plays no role
in the classification. -/
theorem classify_pend_mem {db : DB} {feed : List Status} {st : Status} :
    st ∈ (classify db feed).2 ↔ st ∈ feed ∧ st.media ≠ [] ∧
      ∃ d tl, check_upload db st.sid = d :: tl ∧ d.post = none := by
  induction feed with
  | nil => simp [classify]
  | cons a ftl ih =>
    simp only [classify]
    by_cases ha : a.media.isEmpty
    · rw [if_pos ha]
      rw [ih]
      constructor
      · rintro ⟨h1, h2, h3⟩
        exact ⟨List.mem_cons_of_mem _ h1, h2, h3⟩
      · rintro ⟨h1, h2, h3⟩
        rcases List.mem_cons.1 h1 with rfl | h1
        · exact absurd (List.isEmpty_iff.1 ha) h2
        · exact ⟨h1, h2, h3⟩
    · rw [if_neg ha]
      cases hc : check_upload db a.sid with
      | nil =>
        simp only [List.mem_cons]
        rw [ih]
        constructor
        · rintro ⟨h1, h2, h3⟩
          exact ⟨Or.inr h1, h2, h3⟩
        · rintro ⟨h1, h2, h3⟩
          rcases h1 with rfl | h1
          · obtain ⟨d, tl2, hdtl, _⟩ := h3
            rw [hc] at hdtl
            exact absurd hdtl (List.noConfusion)
          · exact ⟨h1, h2, h3⟩
      | cons d0 dtl =>
        change st ∈ (if d0.post = none then ((classify db ftl).1, a :: (classify db ftl).2)
          else classify db ftl).2 ↔ _
        by_cases hp : d0.post = none
        · rw [if_pos hp]
          simp only [List.mem_cons]
          rw [ih]
          constructor
          · rintro (rfl | ⟨h1, h2, h3⟩)
            · exact ⟨Or.inl rfl, by simpa using ha, d0, dtl, hc, hp⟩
            · exact ⟨Or.inr h1, h2, h3⟩
          · rintro ⟨h1, h2, h3⟩
            rcases h1 with rfl | h1
            · exact Or.inl rfl
            · exact Or.inr ⟨h1, h2, h3⟩
        · rw [if_neg hp]
          simp only [List.mem_cons]
          rw [ih]
          constructor
          · rintro ⟨h1, h2, h3⟩
            exact ⟨Or.inr h1, h2, h3⟩
          · rintro ⟨h1, h2, h3⟩
            rcases h1 with rfl | h1
            · obtain ⟨d, tl2, hdtl, hdp⟩ := h3
              rw [hc] at hdtl
              obtain ⟨rfl, _⟩ := List.cons.inj hdtl
              exact absurd hdp hp
            · exact ⟨h1, h2, h3⟩

/-- A status lands in the unchecked list exactly when it has media and no
document is stored for its sid. -/
theorem classify_unchecked_mem {db : DB} {feed : List Status} {st : Status} :
    st ∈ (classify db feed).1 ↔ st ∈ feed ∧ st.media ≠ [] ∧ check_upload db st.sid = [] := by
  induction feed with
  | nil => simp [classify]
  | cons a ftl ih =>
    simp only [classify]
    by_cases ha : a.media.isEmpty
    · rw [if_pos ha]
      rw [ih]
      constructor
      · rintro ⟨h1, h2, h3⟩
        exact ⟨List.mem_cons_of_mem _ h1, h2, h3⟩
      · rintro ⟨h1, h2, h3⟩
        rcases List.mem_cons.1 h1 with rfl | h1
        · exact absurd (List.isEmpty_iff.1 ha) h2
        · exact ⟨h1, h2, h3⟩
    · rw [if_neg ha]
      cases hc : check_upload db a.sid with
      | nil =>
        simp only [List.mem_cons]
        rw [ih]
        constructor
        · rintro (rfl | ⟨h1, h2, h3⟩)
          · exact ⟨Or.inl rfl, by simpa using ha, hc⟩
          · exact ⟨Or.inr h1, h2, h3⟩
        · rintro ⟨h1, h2, h3⟩
          rcases h1 with rfl | h1
          · exact Or.inl rfl
          · exact Or.inr ⟨h1, h2, h3⟩
      | cons d0 dtl =>
        change st ∈ (if d0.post = none then ((classify db ftl).1, a :: (classify db ftl).2)
          else classify db ftl).1 ↔ _
        have hpush : st ∈ (if d0.post = none then ((classify db ftl).1, a :: (classify db ftl).2)
            else classify db ftl).1 ↔ st ∈ (classify db ftl).1 := by
          split <;> simp
        rw [hpush]
        rw [ih]
        constructor
        · rintro ⟨h1, h2, h3⟩
          exact ⟨List.mem_cons_of_mem _ h1, h2, h3⟩
        · rintro ⟨h1, h2, h3⟩
          rcases List.mem_cons.1 h1 with rfl | h1
          · rw [hc] at h3
            exact absurd h3 (List.noConfusion)
          · exact ⟨h1, h2, h3⟩

theorem classify_sublist_1 (db : DB) (feed : List Status) :
    (classify db feed).1.Sublist feed := by
  induction feed with
  | nil => simp [classify]
  | cons a ftl ih =>
    simp only [classify]
    split
    · exact ih.cons _
    · split
      · exact ih.cons₂ _
      · split
        · exact ih.cons _
        · exact ih.cons _

theorem classify_sublist_2 (db : DB) (feed : List Status) :
    (classify db feed).2.Sublist feed := by
  induction feed with
  | nil => simp [classify]
  | cons a ftl ih =>
    simp only [classify]
    split
    · exact ih.cons _
    · split
      · exact ih.cons _
      · split
        · exact ih.cons₂ _
        · exact ih.cons _

/-!
## Fetch lemmas
-/

theorem get_docs_append (db : DB) (l1 l2 : List Nat) :
    get_docs db (l1 ++ l2) = get_docs db l1 ++ get_docs db l2 := by
  simp [get_docs]

theorem get_docs_mem {db : DB} {sids : List Nat} {d : Doc} (h : d ∈ get_docs db sids) :
    d ∈ db.docs ∧ ∃ v ∈ sids, d.sid = some v := by
  simp only [get_docs, List.mem_flatMap] at h
  obtain ⟨v, hv, hd⟩ := h
  simp only [check_upload, List.mem_filter, beq_iff_eq] at hd
  exact ⟨hd.1, v, hv, hd.2⟩

/-!
## Exact behavior of one iteration on the happy path
-/

/-- The db_entry dictionary that to_imgur writes for a single-media tweet
whose image upload returned the given id, under the given all album. -/
def singleEntry (ts : TweetStatus) (n : Nat) (imgId : String) (alb : Album) : Entry :=
  { sid := ts.sid, name := ts.name, user := ts.screen_name, tweet := ts.url, raw := ts.text
    title := some ("#" ++ toString n ++ " - " ++ ts.text)
    imgs := [imgId]
    url := some ("https://i.imgur.com/" ++ imgId ++ ".jpg")
    album := alb.deletehash, aid := alb.aid, post := none, number := n }

/-- One complete imgur iteration on a single-media tweet with raising-free
clients and an unbounded budget, when the all album already has a
deletehash: exactly one upload, one album add, the entry upsert and the
counter increment. -/
theorem to_imgur_item_single (tc : TotalClients) {ts : TweetStatus} {s : St} {m : String}
    {dh : String} (hmedia : ts.media = [m]) (hh : s.halted = false) (hf : s.fuel = none)
    (hdh : s.allAlbum.deletehash = some dh) :
    to_imgur_item tc.toClients ts s =
      (let imgId := tc.upload_from_url m (gen_config
        { name := ts.name, screen_name := ts.screen_name, body := ts.text, url := ts.url,
          date := ts.date, media := [m], album := none, number := s.number } none none)
      let e := singleEntry ts s.number imgId s.allAlbum
      ({ s with
          db := incrementNumber (upsertEntry s.db ts.sid e)
          number := s.db.number + 1
          trace := s.trace ++
            [.upload_from_url ts.sid m (.ok imgId),
             .album_add_images ts.sid dh [imgId],
             .db_upsert_entry ts.sid e,
             .db_increment ts.sid] },
       entryDoc e)) := by
  have hcr : s.crashed = false := by
    cases hx : s.crashed
    · rfl
    · exact absurd hh (by simp [St.halted, hx])
  have herr : s.err = none := by
    cases hx : s.err
    · rfl
    · exact absurd hh (by simp [St.halted, hx])
  simp [to_imgur_item, to_imgur_item_pre, hmedia, imgsUploadLoop, TotalClients.toClients,
    opCall, opDb, Album.add, St.halted, hcr, herr, hf, hdh, pushEv, singleEntry,
    incrementNumber]

/-- One complete post-stage iteration on a document with a null post
reference, with raising-free clients and an unbounded budget: one submit,
the inbox-reply disabling, one comment, then a single upsert that persists
the post and comment references together. -/
theorem to_reddit_item_post_none (tc : TotalClients) {sub : String} {d : Doc} {s : St}
    {k : Nat} (hsid : d.sid = some k) (hpost : d.post = none) (hh : s.halted = false)
    (hf : s.fuel = none) :
    to_reddit_item tc.toClients sub d s =
      (let pl := tc.submit sub (d.title.getD "") (d.url.getD "")
       let cm := tc.reply pl (comment_text d)
       ({ s with
           db := upsertPost s.db k (some pl) d.url (some cm)
           trace := s.trace ++
             [.submit k (d.title.getD "") (d.url.getD "") (.ok pl),
              .disable_inbox k pl,
              .reply k pl (comment_text d) (.ok cm),
              .db_upsert_post k (some pl) d.url (some cm)] },
        [some pl])) := by
  have hcr : s.crashed = false := by
    cases hx : s.crashed
    · rfl
    · exact absurd hh (by simp [St.halted, hx])
  have herr : s.err = none := by
    cases hx : s.err
    · rfl
    · exact absurd hh (by simp [St.halted, hx])
  simp [to_reddit_item, hsid, redditPost_upload, hpost, TotalClients.toClients, opCall,
    opDb, St.halted, hcr, herr, hf, pushEv]

/-- Filtering after a pointwise update that preserves the predicate
commutes with the update. -/
theorem filter_map_comm {α : Type} (l : List α) (f : α → α) (p : α → Bool)
    (h : ∀ x ∈ l, p (f x) = p x) :
    (l.map f).filter p = (l.filter p).map f := by
  induction l with
  | nil => rfl
  | cons a tl ih =>
    have ha := h a (List.mem_cons_self _ _)
    have htl := fun x hx => h x (List.mem_cons_of_mem _ hx)
    simp only [List.map_cons, List.filter_cons, ha]
    cases hp : p a with
    | false => simpa [hp] using ih htl
    | true => simp [hp, ih htl]

/-- A post-stage upsert rewrites exactly the documents stored under its own
sid, setting their post, url and comment keys. -/
theorem check_upload_upsertPost_self {db : DB} {sid : Nat} {p u cm : Option String} :
    check_upload (upsertPost db sid p u cm) sid =
      (check_upload db sid).map (fun d => { d with post := p, url := u, comment := cm }) := by
  simp only [upsertPost]
  by_cases hany : db.docs.any (fun d => d.sid == some sid)
  · rw [if_pos hany]
    simp only [check_upload]
    rw [filter_map_comm _ _ _ (fun d _ => by by_cases h : d.sid = some sid <;> simp [h])]
    refine List.map_congr_left (fun d hd => ?_)
    have hds : d.sid = some sid := by
      simpa [beq_iff_eq] using (List.mem_filter.1 hd).2
    simp [hds]
  · rw [if_neg hany]
    have hnil : check_upload db sid = [] := by
      simp only [check_upload]
      refine List.filter_eq_nil.2 (fun d hd => ?_)
      exact List.any_eq_false.1 (Bool.eq_false_iff.2 hany) d hd
    simp only [check_upload] at hnil ⊢
    simp [List.filter_append, hnil]

/-- A media-stage upsert for a sid not yet stored appends its entry as the
single document of that sid. -/
theorem check_upload_upsertEntry_fresh {db : DB} {sid : Nat} {e : Entry} (he : e.sid = sid)
    (h : check_upload db sid = []) :
    check_upload (upsertEntry db sid e) sid = [entryDoc e] := by
  have hany : db.docs.any (fun d => d.sid == some sid) = false := by
    rw [List.any_eq_false]
    intro d hd
    have := List.filter_eq_nil.1 h d hd
    simpa using this
  simp only [upsertEntry, hany]
  simp only [check_upload] at h ⊢
  simp [List.filter_append, h, entryDoc, he]

theorem to_reddit_append {c : Clients} {sub : String} (l1 l2 : List Doc) (s : St) :
    to_reddit c sub (l1 ++ l2) s =
      ((to_reddit c sub l2 (to_reddit c sub l1 s).1).1,
       (to_reddit c sub l1 s).2 ++ (to_reddit c sub l2 (to_reddit c sub l1 s).1).2) := by
  induction l1 generalizing s with
  | nil => simp [to_reddit]
  | cons d tl ih =>
    simp only [List.cons_append, to_reddit, List.append_eq]
    rw [ih]
    simp [List.append_assoc]

/-- A post-stage pass over null-post documents with raising-free clients
and an unbounded budget never halts. -/
theorem to_reddit_clean (tc : TotalClients) {sub : String} {l : List Doc} {s : St}
    (hh : s.halted = false) (hf : s.fuel = none)
    (hl : ∀ d ∈ l, (∃ k, d.sid = some k) ∧ d.post = none) :
    (to_reddit tc.toClients sub l s).1.halted = false ∧
      (to_reddit tc.toClients sub l s).1.fuel = none := by
  induction l generalizing s with
  | nil => exact ⟨hh, hf⟩
  | cons d tl ih =>
    obtain ⟨⟨k, hk⟩, hp⟩ := hl d (List.mem_cons_self _ _)
    simp only [to_reddit]
    rw [to_reddit_item_post_none tc hk hp hh hf]
    exact ih hh hf (fun d' hd' => hl d' (List.mem_cons_of_mem _ hd'))

/-- An imgur pass over single-media tweets with raising-free clients, an
unbounded budget and an existing all album never halts and leaves the
album attribute alone. -/
theorem to_imgur_clean (tc : TotalClients) {l : List TweetStatus} {s : St} {dh : String}
    (hh : s.halted = false) (hf : s.fuel = none) (hdh : s.allAlbum.deletehash = some dh)
    (hl : ∀ ts ∈ l, ∃ m, ts.media = [m]) :
    (to_imgur tc.toClients l s).1.halted = false ∧
      (to_imgur tc.toClients l s).1.fuel = none ∧
      (to_imgur tc.toClients l s).1.allAlbum = s.allAlbum := by
  induction l generalizing s with
  | nil => exact ⟨hh, hf, rfl⟩
  | cons ts tl ih =>
    obtain ⟨m, hm⟩ := hl ts (List.mem_cons_self _ _)
    simp only [to_imgur]
    rw [to_imgur_item_single tc hm hh hf hdh]
    simp only
    obtain ⟨h1, h2, h3⟩ := @ih { s with
        db := incrementNumber (upsertEntry s.db ts.sid
          (singleEntry ts s.number (tc.upload_from_url m (gen_config
            { name := ts.name, screen_name := ts.screen_name, body := ts.text, url := ts.url,
              date := ts.date, media := [m], album := none, number := s.number } none none))
            s.allAlbum))
        number := s.db.number + 1
        trace := s.trace ++
          [.upload_from_url ts.sid m (.ok (tc.upload_from_url m (gen_config
              { name := ts.name, screen_name := ts.screen_name, body := ts.text, url := ts.url,
                date := ts.date, media := [m], album := none, number := s.number } none none))),
           .album_add_images ts.sid dh [tc.upload_from_url m (gen_config
              { name := ts.name, screen_name := ts.screen_name, body := ts.text, url := ts.url,
                date := ts.date, media := [m], album := none, number := s.number } none none)],
           .db_upsert_entry ts.sid (singleEntry ts s.number (tc.upload_from_url m (gen_config
              { name := ts.name, screen_name := ts.screen_name, body := ts.text, url := ts.url,
                date := ts.date, media := [m], album := none, number := s.number } none none))
              s.allAlbum),
           .db_increment ts.sid] }
      hh hf hdh (fun ts' hts' => hl ts' (List.mem_cons_of_mem _ hts'))
    exact ⟨h1, h2, h3⟩

/-!
## The com key invariant and the returned post references
-/

/-- No stored document has a com value: no code path writes that key. -/
def DocsComNone (db : DB) : Prop := ∀ d ∈ db.docs, d.com = none

theorem comNone_upsertEntry {db : DB} {sid : Nat} {e : Entry} (h : DocsComNone db) :
    DocsComNone (upsertEntry db sid e) := by
  intro d hd
  simp only [upsertEntry] at hd
  split at hd
  · rcases List.mem_map.1 hd with ⟨d', hd', rfl⟩
    split
    · simp [applyEntry, h d' hd']
    · exact h d' hd'
  · rcases List.mem_append.1 hd with h' | h'
    · exact h d h'
    · simp only [List.mem_singleton] at h'
      subst h'
      rfl

theorem comNone_upsertPost {db : DB} {sid : Nat} {p u cm : Option String}
    (h : DocsComNone db) : DocsComNone (upsertPost db sid p u cm) := by
  intro d hd
  simp only [upsertPost] at hd
  split at hd
  · rcases List.mem_map.1 hd with ⟨d', hd', rfl⟩
    split
    · simpa using h d' hd'
    · exact h d' hd'
  · rcases List.mem_append.1 hd with h' | h'
    · exact h d h'
    · simp only [List.mem_singleton] at h'
      subst h'
      rfl

theorem to_imgur_comNone {c : Clients} {l : List TweetStatus} {s : St}
    (h : DocsComNone s.db) : DocsComNone (to_imgur c l s).1.db := by
  induction l generalizing s with
  | nil => exact h
  | cons ts tl ih =>
    simp only [to_imgur]
    refine ih ?_
    rcases @to_imgur_item_master c ts s with ⟨hdb, _⟩ | ⟨e, _, _, _, _, _, hcase⟩
    · rw [hdb]; exact h
    · rcases hcase with ⟨hdb, _⟩ | ⟨hdb, _⟩
      · rw [hdb]; exact comNone_upsertEntry h
      · rw [hdb]; exact comNone_upsertEntry h

theorem to_reddit_comNone {c : Clients} {sub : String} {l : List Doc} {s : St}
    (h : DocsComNone s.db) : DocsComNone (to_reddit c sub l s).1.db := by
  induction l generalizing s with
  | nil => exact h
  | cons d tl ih =>
    simp only [to_reddit]
    refine ih ?_
    rcases @to_reddit_item_master c sub d s with ⟨hdb, _⟩ | ⟨k, p, u, cm, _, hdb, _⟩
    · rw [hdb]; exact h
    · rw [hdb]; exact comNone_upsertPost h

/-- The reddit submissions a trace records as created, in order. -/
def submitResults (tr : List Ev) : List (Option String) :=
  tr.filterMap (fun e => match e with
    | .submit _ _ _ (.ok pl) => some (some pl)
    | _ => none)

theorem submitResults_append (t1 t2 : List Ev) :
    submitResults (t1 ++ t2) = submitResults t1 ++ submitResults t2 := by
  simp [submitResults]

theorem submitResults_nil_of_no_submit {delta : List Ev}
    (h : ∀ e ∈ delta, ∀ j, isSubmitEv j e = false) : submitResults delta = [] := by
  induction delta with
  | nil => rfl
  | cons e tl ih =>
    have htl := ih (fun x hx => h x (List.mem_cons_of_mem _ hx))
    cases e with
    | submit k t u r =>
      have := h _ (List.mem_cons_self _ _) k
      simp [isSubmitEv] at this
    | upload_from_url k u r => simpa [submitResults] using htl
    | album_add_images k dh ids => simpa [submitResults] using htl
    | create_album k cfg r => simpa [submitResults] using htl
    | get_album k dh => simpa [submitResults] using htl
    | disable_inbox k p => simpa [submitResults] using htl
    | reply k p b r => simpa [submitResults] using htl
    | db_upsert_entry k en => simpa [submitResults] using htl
    | db_upsert_post k p u cm => simpa [submitResults] using htl
    | db_increment k => simpa [submitResults] using htl

/-- An external call after which execution is not halted must have
succeeded from a live state with budget left, recording its event. -/
theorem opCall_ok_of_not_halted {α : Type} {s : St} {r : Except Nat α}
    {ev : Except Nat α → Ev} {eo : Nat → PyErr} {d : α}
    (hh : (opCall s r ev eo d).1.halted = false) :
    s.halted = false ∧ ∃ v, r = .ok v ∧
      opCall s r ev eo d =
        ({ s with fuel := s.fuel.map (· - 1), trace := s.trace ++ [ev (.ok v)] }, v) := by
  have hs : s.halted = false := by
    cases hx : s.halted
    · rfl
    · rw [opCall_halted hx] at hh
      rw [hx] at hh
      exact Bool.noConfusion hh
  have hcr : s.crashed = false := by
    cases hx : s.crashed
    · rfl
    · exact absurd hs (by simp [St.halted, hx])
  have herr : s.err = none := by
    cases hx : s.err
    · rfl
    · exact absurd hs (by simp [St.halted, hx])
  refine ⟨hs, ?_⟩
  by_cases hf : s.fuel = some 0
  · exfalso
    simp [opCall, hs, hcr, herr, hf, St.halted] at hh
  · cases r with
    | ok v =>
      refine ⟨v, rfl, ?_⟩
      simp [opCall, hs, hcr, herr, hf]
    | error code =>
      exfalso
      simp [opCall, hs, hcr, herr, hf, St.halted] at hh

/-- A post-stage iteration that ends unhalted, on a document whose com key
was never written: its contribution to the returned list is exactly the
submissions its own trace segment records as created. -/
theorem to_reddit_item_complete {c : Clients} {sub : String} {d : Doc} {s : St}
    (hcom : d.com = none) (hh : (to_reddit_item c sub d s).1.halted = false) :
    ∃ delta, (to_reddit_item c sub d s).1.trace = s.trace ++ delta ∧
      (to_reddit_item c sub d s).2 = submitResults delta := by
  cases hsid : d.sid with
  | none =>
    exfalso
    simp only [to_reddit_item, hsid] at hh
    rw [opRaise_halted_result] at hh
    exact Bool.noConfusion hh
  | some k =>
    simp only [to_reddit_item, hsid, hcom] at hh ⊢
    cases hp : d.post with
    | some p =>
      exfalso
      simp only [hp, redditPost_upload] at hh
      rw [if_neg (by simp)] at hh
      simp only at hh
      rw [opDb_halted (opRaise_halted_result _ _)] at hh
      rw [opRaise_halted_result] at hh
      exact Bool.noConfusion hh
    | none =>
      simp only [hp, redditPost_upload] at hh ⊢
      rw [if_neg (by simp)] at hh ⊢
      simp only at hh ⊢
      have hX : (opCall (opCall (opCall s
          (c.submit sub (d.title.getD "") (d.url.getD ""))
          (fun res => Ev.submit k (d.title.getD "") (d.url.getD "") res) .api "").1
          (c.disable_inbox_replies (opCall s
            (c.submit sub (d.title.getD "") (d.url.getD ""))
            (fun res => Ev.submit k (d.title.getD "") (d.url.getD "") res) .api "").2)
          (fun _ => Ev.disable_inbox k (opCall s
            (c.submit sub (d.title.getD "") (d.url.getD ""))
            (fun res => Ev.submit k (d.title.getD "") (d.url.getD "") res) .api "").2) .api ()).1
          (c.reply (opCall s
            (c.submit sub (d.title.getD "") (d.url.getD ""))
            (fun res => Ev.submit k (d.title.getD "") (d.url.getD "") res) .api "").2
            (comment_text d))
          (fun res => Ev.reply k (opCall s
            (c.submit sub (d.title.getD "") (d.url.getD ""))
            (fun res => Ev.submit k (d.title.getD "") (d.url.getD "") res) .api "").2
            (comment_text d) res) .api "").1.halted = false := by
        cases hx : (opCall (opCall (opCall s
            (c.submit sub (d.title.getD "") (d.url.getD ""))
            (fun res => Ev.submit k (d.title.getD "") (d.url.getD "") res) .api "").1
            (c.disable_inbox_replies (opCall s
              (c.submit sub (d.title.getD "") (d.url.getD ""))
              (fun res => Ev.submit k (d.title.getD "") (d.url.getD "") res) .api "").2)
            (fun _ => Ev.disable_inbox k (opCall s
              (c.submit sub (d.title.getD "") (d.url.getD ""))
              (fun res => Ev.submit k (d.title.getD "") (d.url.getD "") res) .api "").2) .api ()).1
            (c.reply (opCall s
              (c.submit sub (d.title.getD "") (d.url.getD ""))
              (fun res => Ev.submit k (d.title.getD "") (d.url.getD "") res) .api "").2
              (comment_text d))
            (fun res => Ev.reply k (opCall s
              (c.submit sub (d.title.getD "") (d.url.getD ""))
              (fun res => Ev.submit k (d.title.getD "") (d.url.getD "") res) .api "").2
              (comment_text d) res) .api "").1.halted
        · rfl
        · rw [opDb_halted hx] at hh
          rw [hx] at hh
          exact Bool.noConfusion hh
      obtain ⟨h2, v3, hrep, heq3⟩ := opCall_ok_of_not_halted hX
      obtain ⟨h1, v2, hdis, heq2⟩ := opCall_ok_of_not_halted h2
      obtain ⟨h0, v1, hsubm, heq1⟩ := opCall_ok_of_not_halted h1
      rw [heq1] at heq2 heq3 hh ⊢
      simp only at heq2 heq3 hh ⊢
      rw [heq2] at heq3 hh ⊢
      simp only at heq3 hh ⊢
      rw [heq3] at hh ⊢
      simp only at hh ⊢
      have hcr : s.crashed = false := by
        cases hx : s.crashed
        · rfl
        · exact absurd h0 (by simp [St.halted, hx])
      have herr : s.err = none := by
        cases hx : s.err
        · rfl
        · exact absurd h0 (by simp [St.halted, hx])
      by_cases hfz : ((s.fuel.map (· - 1)).map (· - 1)).map (· - 1) = some 0
      · exfalso
        simp only [Option.map_eq_some', Option.map_map, Function.comp] at hfz
        simp [opDb, St.halted, hcr, herr, hfz] at hh
      · simp only [Option.map_eq_some', Option.map_map, Function.comp, not_exists, not_and] at hfz
        have hnc : ¬ ∃ a, s.fuel = some a ∧ a - 1 - 1 - 1 = 0 := by
          rintro ⟨a, ha, h3⟩
          exact hfz a ha h3
        refine ⟨[Ev.submit k (d.title.getD "") (d.url.getD "") (.ok v1),
          Ev.disable_inbox k v1,
          Ev.reply k v1 (comment_text d) (.ok v3),
          Ev.db_upsert_post k (some v1) d.url (some v3)], ?_, ?_⟩
        · simp [opDb, St.halted, hcr, herr, hnc]
        · simp [submitResults]

/-- A post-stage pass that ends unhalted, on documents whose com keys were
never written: the returned list is exactly the submissions the pass's
trace segment records as created, in order. -/
theorem to_reddit_complete {c : Clients} {sub : String} {l : List Doc} {s : St}
    (hcom : ∀ d ∈ l, d.com = none) (hh : (to_reddit c sub l s).1.halted = false) :
    ∃ delta, (to_reddit c sub l s).1.trace = s.trace ++ delta ∧
      (to_reddit c sub l s).2 = submitResults delta := by
  induction l generalizing s with
  | nil => exact ⟨[], by simp [to_reddit], rfl⟩
  | cons d tl ih =>
    simp only [to_reddit] at hh ⊢
    have hitem : (to_reddit_item c sub d s).1.halted = false :=
      not_halted_of_to_reddit hh
    obtain ⟨d1, ht1, hr1⟩ := to_reddit_item_complete (hcom d (List.mem_cons_self _ _)) hitem
    obtain ⟨d2, ht2, hr2⟩ := ih (fun x hx => hcom x (List.mem_cons_of_mem _ hx)) hh
    refine ⟨d1 ++ d2, ?_, ?_⟩
    · rw [ht2, ht1, List.append_assoc]
    · rw [hr1, hr2, submitResults_append]

/-- A whole upload call that ends unhalted and returns a list, started on a
store whose com keys were never written and with an empty trace: the
returned list is exactly the submissions the run's trace records as
created, in order. -/
theorem upload_complete {c : Clients} {sub : String} {feed : List Status} {s : St}
    (hcom : DocsComNone s.db) (htr : s.trace = [])
    (hh : (upload c sub feed s).1.halted = false)
    {posts : List (Option String)} (hposts : (upload c sub feed s).2 = some posts) :
    posts = submitResults (upload c sub feed s).1.trace := by
  simp only [upload] at hh hposts ⊢
  by_cases hc : (get_statuses s.db feed).1.length = 0 ∧ (get_statuses s.db feed).2.length = 0
  · rw [if_pos hc] at hposts
    exact absurd hposts (by simp)
  · rw [if_neg hc] at hh hposts ⊢
    simp only [Option.some_inj] at hposts
    subst hposts
    have hh2 : (to_reddit c sub (to_imgur c (get_statuses s.db feed).1 s).2
        (to_imgur c (get_statuses s.db feed).1 s).1).1.halted = false :=
      not_halted_of_to_reddit hh
    have hcom1 : ∀ d ∈ (to_imgur c (get_statuses s.db feed).1 s).2, d.com = none := by
      intro d hd
      obtain ⟨ts, _, _, _, hcm⟩ := to_imgur_docs_shape d hd
      exact hcm
    have hcom3 : ∀ d ∈ already_uploaded
        (to_reddit c sub (to_imgur c (get_statuses s.db feed).1 s).2
          (to_imgur c (get_statuses s.db feed).1 s).1).1.db (get_statuses s.db feed).2,
        d.com = none := by
      intro d hd
      have hmem := (get_docs_mem hd).1
      exact to_reddit_comNone (to_imgur_comNone hcom)
        d hmem
    obtain ⟨D1, hT1, hP1⟩ := @to_imgur_traceP c (get_statuses s.db feed).1 s
    obtain ⟨D2, hT2, hR2⟩ := to_reddit_complete hcom1 hh2
    obtain ⟨D3, hT3, hR3⟩ := to_reddit_complete hcom3 hh
    rw [hR2, hR3, hT3, hT2, hT1, htr]
    have hD1 : submitResults D1 = [] :=
      submitResults_nil_of_no_submit (fun e he => (hP1 e he).2.1)
    simp [submitResults_append, hD1]

/-!
## Concrete sample data

Closed values used to evaluate the verified statements on explicit
inputs: raising-free clients with distinguishable answers, a settings
record with an existing all album, and small statuses and stores.
-/

/-- Sample raising-free clients. -/
def tc0 : TotalClients :=
  { upload_from_url := fun u _ => "img-" ++ u
    create_album := fun _ => ("dh0", "aid0")
    get_album := fun h => "aid-" ++ h
    submit := fun _ t _ => "post-" ++ t
    reply := fun p _ => "com-" ++ p }

/-- Sample settings with an existing all album hash. -/
def cfg0 : Settings :=
  { user := "u", subreddit := "pics", all_hash := some "AH", all_name := some "All"
    all_desc := some "alldesc" }

/-- A single media attachment. -/
def m1 : Media := { media_url_https := "mu", hasLarge := false }

/-- A fresh single-media status. -/
def st1 : Status :=
  { sid := 1, screen_name := "sn", name := "Nm", text := "hello https://t.co/x"
    media := [m1], date := "2020-01-01 00:00:00" }

/-- An empty store whose counter reads five. -/
def db0 : DB := { docs := [], number := 5 }

/-- A record with the post made, media complete, but no comment recorded. -/
def dC2 : Doc :=
  { sid := some 7, name := "Nm", user := "sn", tweet := "tw", raw := "txt"
    title := some "#3 - txt", imgs := ["M1"], url := some "https://i.imgur.com/M1.jpg"
    album := some "AH", aid := some "aid0", post := some "post-x", comment := none
    com := none, number := 3 }

/-- A store holding only that record. -/
def dbC2 : DB := { docs := [dC2], number := 4 }

/-- The matching media-bearing status. -/
def stC2 : Status :=
  { sid := 7, screen_name := "sn", name := "Nm", text := "txt", media := [m1]
    date := "2020-01-02 00:00:00" }

/-!
## Locality of one run around an untouched sid
-/

theorem get_statuses_fst (db : DB) (feed : List Status) :
    (get_statuses db feed).1 = (classify db feed).1.map mkTweetStatus := rfl

theorem get_statuses_snd (db : DB) (feed : List Status) :
    (get_statuses db feed).2 = (classify db feed).2.map mkTweetStatus := rfl

theorem map_sid_mk (l : List Status) :
    (l.map mkTweetStatus).map TweetStatus.sid = l.map Status.sid := by
  rw [List.map_map]
  exact List.map_congr_left (fun st _ => rfl)

/-- Events whose tags all lie in a list avoiding k contribute nothing to
k's submit, reply and upload counts. -/
theorem count_zero_of_tags_ne {delta : List Ev} {k : Nat} {T : List Nat}
    (htags : ∀ e ∈ delta, Ev.tag e ∈ T) (hk : k ∉ T) :
    submitCount k delta = 0 ∧ replyCount k delta = 0 ∧ uploadCount k delta = 0 := by
  refine ⟨filter_count_nil ?_, filter_count_nil ?_, filter_count_nil ?_⟩ <;> intro e he
  · cases hb : isSubmitEv k e
    · rfl
    · exact absurd (isSubmitEv_tag hb ▸ htags e he) hk
  · cases hb : isReplyEv k e
    · rfl
    · exact absurd (isReplyEv_tag hb ▸ htags e he) hk
  · cases hb : isUploadEv k e
    · rfl
    · exact absurd (isUploadEv_tag hb ▸ htags e he) hk

/-- A sid carried by no classified status is untouched by the whole run:
no submit, reply or upload event is ever tagged with it and its stored
documents are exactly as before. -/
theorem runOnce_untouched (c : Clients) (cfg : Settings) (feed : List Status) (db : DB)
    (fuel : Option Nat) {k : Nat}
    (hk1 : ∀ st ∈ (classify db feed).1, st.sid ≠ k)
    (hk2 : ∀ st ∈ (classify db feed).2, st.sid ≠ k) :
    submitCount k (runOnce c cfg feed db fuel).1.trace = 0 ∧
    replyCount k (runOnce c cfg feed db fuel).1.trace = 0 ∧
    uploadCount k (runOnce c cfg feed db fuel).1.trace = 0 ∧
    check_upload (runOnce c cfg feed db fuel).1.db k = check_upload db k := by
  simp only [runOnce, upload]
  by_cases hc : (get_statuses (initSt cfg db fuel).db feed).1.length = 0 ∧
      (get_statuses (initSt cfg db fuel).db feed).2.length = 0
  · rw [if_pos hc]
    exact ⟨rfl, rfl, rfl, rfl⟩
  · rw [if_neg hc]
    simp only
    set s0 := initSt cfg db fuel with hs0
    set U := (get_statuses s0.db feed).1 with hUdef
    set P := (get_statuses s0.db feed).2 with hPdef
    set r1 := to_imgur c U s0 with hr1
    set r2 := to_reddit c cfg.subreddit r1.2 r1.1 with hr2
    set pd := already_uploaded r2.1.db P with hpd
    set r3 := to_reddit c cfg.subreddit pd r2.1 with hr3
    have hU : k ∉ U.map TweetStatus.sid := by
      intro hmem
      obtain ⟨ts, hts, hsid⟩ := List.mem_map.1 hmem
      have hts2 : ts ∈ (classify db feed).1.map mkTweetStatus := hts
      obtain ⟨st, hst, hmk⟩ := List.mem_map.1 hts2
      apply hk1 st hst
      have h1 : st.sid = ts.sid := by
        rw [← hmk]
        exact rfl
      exact h1.trans hsid
    have hD2 : k ∉ r1.2.filterMap Doc.sid := by
      intro hmem
      obtain ⟨dx, hdx, hsx⟩ := List.mem_filterMap.1 hmem
      obtain ⟨ts, hts, hsid, _, _⟩ := to_imgur_docs_shape dx hdx
      have hts' : ts.sid = k := by
        rw [hsid] at hsx
        exact Option.some_inj.1 hsx
      exact hU (hts' ▸ List.mem_map_of_mem TweetStatus.sid hts)
    have hP : k ∉ pd.filterMap Doc.sid := by
      intro hmem
      obtain ⟨dx, hdx, hsx⟩ := List.mem_filterMap.1 hmem
      obtain ⟨_, v, hv, hdv⟩ := get_docs_mem hdx
      have hvk : v = k := by
        rw [hdv] at hsx
        exact Option.some_inj.1 hsx
      obtain ⟨ts, hts, hsid2⟩ := List.mem_map.1 hv
      have hts2 : ts ∈ (classify db feed).2.map mkTweetStatus := hts
      obtain ⟨st, hst, hmk⟩ := List.mem_map.1 hts2
      apply hk2 st hst
      have h1 : st.sid = ts.sid := by
        rw [← hmk]
        exact rfl
      exact h1.trans (hsid2.trans hvk)
    have db1 : check_upload r1.1.db k = check_upload db k := to_imgur_check_ne hU
    have db2 : check_upload r2.1.db k = check_upload db k :=
      (to_reddit_check_ne hD2).trans db1
    have db3 : check_upload r3.1.db k = check_upload db k :=
      (to_reddit_check_ne hP).trans db2
    obtain ⟨D1, hT1, hQ1⟩ := @to_imgur_traceP c U s0
    obtain ⟨D2, hT2, hQ2⟩ := @to_reddit_traceP c cfg.subreddit r1.2 r1.1
    obtain ⟨D3, hT3, hQ3⟩ := @to_reddit_traceP c cfg.subreddit pd r2.1
    have hC1 := @count_zero_of_tags_ne D1 k (U.map TweetStatus.sid)
      (fun e he => (hQ1 e he).1) hU
    have hC2 := @count_zero_of_tags_ne D2 k (r1.2.filterMap Doc.sid)
      (fun e he => (hQ2 e he).1) hD2
    have hC3 := @count_zero_of_tags_ne D3 k (pd.filterMap Doc.sid)
      (fun e he => (hQ3 e he).1) hP
    have hs0tr : s0.trace = [] := rfl
    refine ⟨?_, ?_, ?_, db3⟩ <;> rw [hT3, hT2, hT1, hs0tr]
    · simp [submitCount_append, hC1.1, hC2.1, hC3.1]
    · simp [replyCount_append, hC1.2.1, hC2.2.1, hC3.2.1]
    · simp [uploadCount_append, hC1.2.2, hC2.2.2, hC3.2.2]

/-!
## The claims
-/

/-- C9: each top-level invocation returns the explicit no-work signal None
exactly when discovery classifies zero eligible items; when it returns a
list and the run ended without a propagating failure, that list is, in
order, exactly the post references the run's trace records as newly
created; and the caller treats the no-work answer as success: the retry
driver of main ends with posts still None and its final error log (which
fires only on an empty list) stays quiet, nothing is raised. -/
theorem upload_no_work_signal (c : Clients) (cfg : Settings) (feed : List Status)
    (db : DB) (fuel : Option Nat) :
    ((runOnce c cfg feed db fuel).2 = none ↔
      (classify db feed).1 = [] ∧ (classify db feed).2 = []) ∧
    (DocsComNone db → (runOnce c cfg feed db fuel).1.halted = false →
      ∀ posts, (runOnce c cfg feed db fuel).2 = some posts →
        posts = submitResults (runOnce c cfg feed db fuel).1.trace) ∧
    (∀ delayBound attemptBound,
      mainResult (fun _ => none) delayBound attemptBound = (none, false)) := by
  refine ⟨?_, ?_, ?_⟩
  · show (upload c cfg.subreddit feed (initSt cfg db fuel)).2 = none ↔ _
    have hdb : (initSt cfg db fuel).db = db := rfl
    simp only [upload, get_statuses, hdb]
    by_cases hc : ((classify db feed).1.map mkTweetStatus).length = 0 ∧
        ((classify db feed).2.map mkTweetStatus).length = 0
    · rw [if_pos hc]
      simp only [List.length_map, List.length_eq_zero] at hc
      simp [hc]
    · rw [if_neg hc]
      simp only [List.length_map, List.length_eq_zero] at hc
      simp [hc]
  · intro hcom hh posts hposts
    exact upload_complete hcom rfl hh hposts
  · intro dB aB
    have h1 : ∀ n i, mainLoop1 (fun _ => none) i n = (none, i + n) := by
      intro n
      induction n with
      | zero => intro i; simp [mainLoop1]
      | succ mm ih =>
        intro i
        simp only [mainLoop1]
        rw [ih]
        exact congrArg _ (by omega)
    simp only [mainResult, h1]
    cases aB with
    | zero => rfl
    | succ mm => rfl

/-- Evaluation of C9 on explicit inputs: a run on one fresh single-media
status returns exactly the submissions its trace records. -/
theorem upload_no_work_signal_witness :
    (runOnce tc0.toClients cfg0 [st1] db0 none).2 =
      some (submitResults (runOnce tc0.toClients cfg0 [st1] db0 none).1.trace) := by
  have h := (upload_no_work_signal tc0.toClients cfg0 [st1] db0 none).2.1
    (fun d hd => absurd hd (List.not_mem_nil _)) rfl
  rw [← h _ rfl]
  rfl

/-- C2 (corrected): discovery classifies a fetched media-bearing item as
post-pending exactly when a record exists for it and the first stored
record has a null post reference; the comment reference plays no role, so
a record with the post made but the comment still missing is skipped, not
re-batched. -/
theorem classify_post_pending (db : DB) (feed : List Status) (st : Status) :
    st ∈ (classify db feed).2 ↔
      st ∈ feed ∧ st.media ≠ [] ∧
        ∃ d tl, check_upload db st.sid = d :: tl ∧ d.post = none :=
  classify_pend_mem

/-- C2 counterexample to the original sentence: a media-bearing item whose
record has the post reference set but the comment reference null is
classified neither post-pending nor new; the run skips it entirely. -/
theorem classify_by_post_only_counterexample :
    dC2.post.isSome = true ∧ dC2.comment = none ∧ dC2.imgs ≠ [] ∧
    stC2.media ≠ [] ∧ check_upload dbC2 7 = [dC2] ∧
    (classify dbC2 [stC2]).2 = [] ∧ (classify dbC2 [stC2]).1 = [] := by
  refine ⟨rfl, rfl, by decide, by decide, rfl, rfl, rfl⟩

/-- C6 (corrected): a stored record whose post reference is already set is
never resumed at the comment step: discovery excludes it from both
batches, so the run performs no comment call (and no re-submit) for it and
leaves its stored record, comment reference still null, unchanged. -/
theorem postset_record_untouched (c : Clients) (cfg : Settings) (feed : List Status)
    (db : DB) (fuel : Option Nat) {k : Nat} {d : Doc} {dtl : List Doc}
    (hk : check_upload db k = d :: dtl) (hpost : d.post ≠ none) :
    replyCount k (runOnce c cfg feed db fuel).1.trace = 0 ∧
    submitCount k (runOnce c cfg feed db fuel).1.trace = 0 ∧
    check_upload (runOnce c cfg feed db fuel).1.db k = d :: dtl := by
  have hk1 : ∀ st ∈ (classify db feed).1, st.sid ≠ k := by
    intro st hst heq
    have h2 := (classify_unchecked_mem.1 hst).2.2
    rw [heq, hk] at h2
    exact List.noConfusion h2
  have hk2 : ∀ st ∈ (classify db feed).2, st.sid ≠ k := by
    intro st hst heq
    obtain ⟨_, _, d', tl', hchk, hp⟩ := classify_pend_mem.1 hst
    rw [heq, hk] at hchk
    obtain ⟨rfl, _⟩ := List.cons.inj hchk
    exact hpost hp
  obtain ⟨h1, h2, _, h4⟩ := runOnce_untouched c cfg feed db fuel hk1 hk2
  exact ⟨h2, h1, hk ▸ h4⟩

/-- Evaluation of C6 on explicit inputs: the post-made comment-missing
record of dbC2 draws no reply and no submit, and stays as it is. -/
theorem postset_record_untouched_witness :
    replyCount 7 (runOnce tc0.toClients cfg0 [stC2] dbC2 none).1.trace = 0 ∧
    submitCount 7 (runOnce tc0.toClients cfg0 [stC2] dbC2 none).1.trace = 0 ∧
    check_upload (runOnce tc0.toClients cfg0 [stC2] dbC2 none).1.db 7 = [dC2] :=
  postset_record_untouched tc0.toClients cfg0 [stC2] dbC2 none rfl (by decide)

/-- C6 counterexample to the original sentence: on a store holding a
record with the post set and the comment null, the run performs no comment
call at all (the whole run is a no-op) and the comment reference remains
unpersisted. -/
theorem comment_only_resume_counterexample :
    findDoc dbC2 7 = some dC2 ∧ dC2.post.isSome = true ∧ dC2.comment = none ∧
    replyCount 7 (runOnce tc0.toClients cfg0 [stC2] dbC2 none).1.trace = 0 ∧
    (runOnce tc0.toClients cfg0 [stC2] dbC2 none).1.trace = [] ∧
    findDoc (runOnce tc0.toClients cfg0 [stC2] dbC2 none).1.db 7 = some dC2 := by
  exact ⟨rfl, rfl, rfl, rfl, rfl, rfl⟩

/-- C3 (corrected): nothing is persisted at discovery time; a freshly
classified item's record is first written by the media stage, as one
upsert of the finished entry (carrying the sequence number read when the
entry was built, the uploaded image ids and a null post reference) that
happens only after the imgur upload and the album add, with the counter
advanced immediately afterwards. -/
theorem record_persisted_by_media_stage (tc : TotalClients) {ts : TweetStatus} {s : St}
    {m dh : String} (hmedia : ts.media = [m]) (hh : s.halted = false) (hf : s.fuel = none)
    (hdh : s.allAlbum.deletehash = some dh) (hfresh : check_upload s.db ts.sid = []) :
    ∃ imgId e,
      (to_imgur_item tc.toClients ts s).1.trace =
        s.trace ++ [Ev.upload_from_url ts.sid m (.ok imgId),
                    Ev.album_add_images ts.sid dh [imgId],
                    Ev.db_upsert_entry ts.sid e,
                    Ev.db_increment ts.sid] ∧
      e.sid = ts.sid ∧ e.number = s.number ∧ e.imgs = [imgId] ∧ e.post = none ∧
      check_upload (to_imgur_item tc.toClients ts s).1.db ts.sid = [entryDoc e] ∧
      (to_imgur_item tc.toClients ts s).1.db.number = s.db.number + 1 := by
  rw [to_imgur_item_single tc hmedia hh hf hdh]
  refine ⟨_, _, rfl, rfl, rfl, rfl, rfl, ?_, ?_⟩
  · exact (check_upload_incrementNumber _ _).trans (check_upload_upsertEntry_fresh rfl hfresh)
  · simp [incrementNumber]

/-- Evaluation of C3 on explicit inputs. -/
theorem record_persisted_by_media_stage_witness :
    ∃ imgId e,
      (to_imgur_item tc0.toClients (mkTweetStatus st1) (initSt cfg0 db0 none)).1.trace =
        (initSt cfg0 db0 none).trace ++
          [Ev.upload_from_url 1 "mu" (.ok imgId),
           Ev.album_add_images 1 "AH" [imgId],
           Ev.db_upsert_entry 1 e,
           Ev.db_increment 1] ∧
      e.sid = 1 ∧ e.number = 5 ∧ e.imgs = [imgId] ∧ e.post = none ∧
      check_upload (to_imgur_item tc0.toClients (mkTweetStatus st1)
        (initSt cfg0 db0 none)).1.db 1 = [entryDoc e] ∧
      (to_imgur_item tc0.toClients (mkTweetStatus st1)
        (initSt cfg0 db0 none)).1.db.number = 6 :=
  record_persisted_by_media_stage tc0 rfl rfl rfl rfl rfl

/-- C3 counterexample to the original sentence: a run killed before its
first side effect has already performed discovery and classified the item
as new, yet the store holds no record for it and the counter is
untouched: discovery persisted nothing. -/
theorem discovery_persists_nothing_counterexample :
    (classify db0 [st1]).1 = [st1] ∧
    (runOnce tc0.toClients cfg0 [st1] db0 (some 0)).1.crashed = true ∧
    (runOnce tc0.toClients cfg0 [st1] db0 (some 0)).1.db.docs = [] ∧
    (runOnce tc0.toClients cfg0 [st1] db0 (some 0)).1.db.number = 5 := by
  exact ⟨rfl, rfl, rfl, rfl⟩

/-- A media-done record awaiting its post, and its matching status. -/
def dP : Doc :=
  { sid := some 9, name := "Nm", user := "sn", tweet := "https://twitter.com/sn/status/9"
    raw := "body", title := some "#2 - body", imgs := ["M9"]
    url := some "https://i.imgur.com/M9.jpg", album := some "AH", aid := some "aid0"
    post := none, comment := none, com := none, number := 2 }

def dbP : DB := { docs := [dP], number := 3 }

def stP : Status :=
  { sid := 9, screen_name := "sn", name := "Nm", text := "body", media := [m1]
    date := "2020-01-03 00:00:00" }

/-- C5 (corrected): the post reference is not persisted between the submit
and the comment call: one complete post-stage iteration submits, disables
inbox replies, replies, and only then persists the post and comment
references together in a single upsert; no store write separates the
submit from the comment. -/
theorem post_persisted_with_comment (tc : TotalClients) {sub : String} {d : Doc} {s : St}
    {k : Nat} (hsid : d.sid = some k) (hpost : d.post = none) (hh : s.halted = false)
    (hf : s.fuel = none) :
    ∃ pl cm,
      (to_reddit_item tc.toClients sub d s).1.trace =
        s.trace ++ [Ev.submit k (d.title.getD "") (d.url.getD "") (.ok pl),
                    Ev.disable_inbox k pl,
                    Ev.reply k pl (comment_text d) (.ok cm),
                    Ev.db_upsert_post k (some pl) d.url (some cm)] ∧
      (to_reddit_item tc.toClients sub d s).1.db =
        upsertPost s.db k (some pl) d.url (some cm) := by
  rw [to_reddit_item_post_none tc hsid hpost hh hf]
  exact ⟨_, _, rfl, rfl⟩

/-- Evaluation of C5 on explicit inputs. -/
theorem post_persisted_with_comment_witness :
    ∃ pl cm,
      (to_reddit_item tc0.toClients "pics" dP (initSt cfg0 dbP none)).1.trace =
        (initSt cfg0 dbP none).trace ++
          [Ev.submit 9 "#2 - body" "https://i.imgur.com/M9.jpg" (.ok pl),
           Ev.disable_inbox 9 pl,
           Ev.reply 9 pl (comment_text dP) (.ok cm),
           Ev.db_upsert_post 9 (some pl) dP.url (some cm)] ∧
      (to_reddit_item tc0.toClients "pics" dP (initSt cfg0 dbP none)).1.db =
        upsertPost dbP 9 (some pl) dP.url (some cm) :=
  post_persisted_with_comment tc0 rfl rfl rfl rfl

/-- C5 counterexample to the original sentence: a run killed right after
the submit succeeds leaves the created post unrecorded (the record's post
reference is still null), and the next run submits the same item again. -/
theorem post_ref_lost_on_crash_counterexample :
    submitCount 9 (runOnce tc0.toClients cfg0 [stP] dbP (some 1)).1.trace = 1 ∧
    (runOnce tc0.toClients cfg0 [stP] dbP (some 1)).1.crashed = true ∧
    findDoc (runOnce tc0.toClients cfg0 [stP] dbP (some 1)).1.db 9 = some dP ∧
    dP.post = none ∧
    submitCount 9 (runOnce tc0.toClients cfg0 [stP]
      (runOnce tc0.toClients cfg0 [stP] dbP (some 1)).1.db none).1.trace = 1 := by
  exact ⟨rfl, rfl, rfl, rfl, rfl⟩

/-- Clients whose image upload always raises (code seven) while every
other call succeeds. -/
def cFail : Clients :=
  { upload_from_url := fun _ _ => .error 7
    album_add_images := fun _ _ => .ok ()
    create_album := fun _ => .ok ("dh0", "aid0")
    get_album := fun h => .ok ("aid-" ++ h)
    submit := fun _ t _ => .ok ("post-" ++ t)
    disable_inbox_replies := fun _ => .ok ()
    reply := fun p _ => .ok ("com-" ++ p) }

def stA : Status :=
  { sid := 1, screen_name := "sn", name := "Nm", text := "a", media := [m1], date := "d" }

def stB : Status :=
  { sid := 2, screen_name := "sn", name := "Nm", text := "b", media := [m1], date := "d" }

/-- C7 (corrected): a stage failure is not caught at the item level: the
exception propagates and aborts the run.  When the image upload of the
first item of a media batch fails, the error becomes the run's
propagating exception, the store keeps no state at all for the failed
item, and the remaining sibling items of the batch are not processed:
the batch contributes exactly the one failed-upload event. -/
theorem stage_failure_aborts (c : Clients) (ts : TweetStatus) (rest : List TweetStatus)
    {s : St} {m : String} {code : Nat}
    (hmedia : ts.media = [m]) (hh : s.halted = false) (hf : s.fuel = none)
    (hfail : ∀ cfg, c.upload_from_url m cfg = .error code) :
    (to_imgur c (ts :: rest) s).1.err = some (.api code) ∧
    (to_imgur c (ts :: rest) s).1.db = s.db ∧
    (to_imgur c (ts :: rest) s).1.trace =
      s.trace ++ [Ev.upload_from_url ts.sid m (.error code)] := by
  have hcr : s.crashed = false := by
    cases hx : s.crashed
    · rfl
    · exact absurd hh (by simp [St.halted, hx])
  have herr : s.err = none := by
    cases hx : s.err
    · rfl
    · exact absurd hh (by simp [St.halted, hx])
  have hitem : (to_imgur_item c ts s).1 =
      { s with trace := s.trace ++ [Ev.upload_from_url ts.sid m (.error code)]
               err := some (.api code) } := by
    simp [to_imgur_item, to_imgur_item_pre, hmedia, imgsUploadLoop, hfail,
      opCall, opDb, opRaise, Album.add, Album.create, St.halted, hcr, herr, hf, pushEv]
  have hhal : ((to_imgur_item c ts s).1).halted = true := by
    rw [hitem]
    simp [St.halted]
  simp only [to_imgur]
  rw [to_imgur_halted hhal, hitem]
  exact ⟨rfl, rfl, rfl⟩

/-- Evaluation of C7 on explicit inputs: with a failing image upload, a
two-item batch aborts on the first item and never touches the second. -/
theorem stage_failure_aborts_witness :
    (to_imgur cFail (mkTweetStatus stA :: [mkTweetStatus stB])
        (initSt cfg0 { docs := [], number := 0 } none)).1.err = some (.api 7) ∧
    (to_imgur cFail (mkTweetStatus stA :: [mkTweetStatus stB])
        (initSt cfg0 { docs := [], number := 0 } none)).1.db =
      { docs := [], number := 0 } ∧
    (to_imgur cFail (mkTweetStatus stA :: [mkTweetStatus stB])
        (initSt cfg0 { docs := [], number := 0 } none)).1.trace =
      [Ev.upload_from_url 1 "mu" (.error 7)] :=
  stage_failure_aborts cFail (mkTweetStatus stA) [mkTweetStatus stB] rfl rfl rfl
    (fun _ => rfl)

/-- C7 counterexample to the original sentence: at run level, the failing
first item poisons the whole invocation: the error propagates, nothing is
persisted, and the sibling item receives no upload at all. -/
theorem failure_not_caught_counterexample :
    (runOnce cFail cfg0 [stA, stB] { docs := [], number := 0 } none).1.err =
      some (.api 7) ∧
    (runOnce cFail cfg0 [stA, stB] { docs := [], number := 0 } none).1.trace =
      [Ev.upload_from_url 1 "mu" (.error 7)] ∧
    (runOnce cFail cfg0 [stA, stB] { docs := [], number := 0 } none).1.db.docs = [] ∧
    uploadCount 2 (runOnce cFail cfg0 [stA, stB]
      { docs := [], number := 0 } none).1.trace = 0 := by
  exact ⟨rfl, rfl, rfl, rfl⟩

/-- C4 (corrected): within one complete uninterrupted media pass the
persisted sequence numbers are consecutive and strictly increasing: each
upsert stores the counter value as read, and the counter is advanced
immediately afterwards, ending one position higher per item.  (Across an
interrupted run the original sentence fails: the counterexample stores
the same number in two different records.) -/
theorem media_numbers_strictly_increasing (tc : TotalClients) {l : List TweetStatus}
    {s : St} {dh : String} (hh : s.halted = false) (hf : s.fuel = none)
    (hdh : s.allAlbum.deletehash = some dh) (hl : ∀ ts ∈ l, ∃ m, ts.media = [m])
    (hsync : s.number = s.db.number) :
    entryNums (to_imgur tc.toClients l s).1.trace =
      entryNums s.trace ++ List.range' s.db.number l.length ∧
    (to_imgur tc.toClients l s).1.db.number = s.db.number + l.length := by
  induction l generalizing s with
  | nil => simp [to_imgur]
  | cons ts tl ih =>
    obtain ⟨m, hm⟩ := hl ts (List.mem_cons_self _ _)
    simp only [to_imgur]
    rw [to_imgur_item_single tc hm hh hf hdh]
    simp only
    obtain ⟨h1, h2⟩ := @ih { s with
        db := incrementNumber (upsertEntry s.db ts.sid
          (singleEntry ts s.number (tc.upload_from_url m (gen_config
            { name := ts.name, screen_name := ts.screen_name, body := ts.text, url := ts.url,
              date := ts.date, media := [m], album := none, number := s.number } none none))
            s.allAlbum))
        number := s.db.number + 1
        trace := s.trace ++
          [.upload_from_url ts.sid m (.ok (tc.upload_from_url m (gen_config
              { name := ts.name, screen_name := ts.screen_name, body := ts.text, url := ts.url,
                date := ts.date, media := [m], album := none, number := s.number } none none))),
           .album_add_images ts.sid dh [tc.upload_from_url m (gen_config
              { name := ts.name, screen_name := ts.screen_name, body := ts.text, url := ts.url,
                date := ts.date, media := [m], album := none, number := s.number } none none)],
           .db_upsert_entry ts.sid (singleEntry ts s.number (tc.upload_from_url m (gen_config
              { name := ts.name, screen_name := ts.screen_name, body := ts.text, url := ts.url,
                date := ts.date, media := [m], album := none, number := s.number } none none))
              s.allAlbum),
           .db_increment ts.sid] }
      hh hf hdh (fun ts' hts' => hl ts' (List.mem_cons_of_mem _ hts'))
      (by simp [incrementNumber])
    refine ⟨?_, ?_⟩
    · rw [h1]
      simp only [entryNums_append, List.length_cons]
      simp [entryNums, singleEntry, incrementNumber, hsync, List.range'_succ]
    · rw [h2]
      simp only [List.length_cons]
      simp [incrementNumber]
      omega

/-- Evaluation of C4 on explicit inputs: a two-item complete pass stores
the numbers five and six and advances the counter to seven. -/
theorem media_numbers_strictly_increasing_witness :
    entryNums (to_imgur tc0.toClients [mkTweetStatus stA, mkTweetStatus stB]
        (initSt cfg0 { docs := [], number := 5 } none)).1.trace =
      entryNums (initSt cfg0 { docs := [], number := 5 } none).trace ++
        List.range' 5 2 ∧
    (to_imgur tc0.toClients [mkTweetStatus stA, mkTweetStatus stB]
        (initSt cfg0 { docs := [], number := 5 } none)).1.db.number = 5 + 2 :=
  media_numbers_strictly_increasing tc0 rfl rfl rfl
    (by
      intro ts hts
      rcases List.mem_cons.1 hts with rfl | hts2
      · exact ⟨"mu", rfl⟩
      · rcases List.mem_cons.1 hts2 with rfl | hts3
        · exact ⟨"mu", rfl⟩
        · exact absurd hts3 (List.not_mem_nil _))
    rfl

/-- C4 counterexample to the original sentence: a run killed between the
media upsert and the counter advancement leaves the counter behind, and
the next run stores the same sequence number in a second, different
record. -/
theorem duplicate_number_counterexample :
    ((runOnce tc0.toClients cfg0 [stB]
        (runOnce tc0.toClients cfg0 [stA] { docs := [], number := 5 } (some 3)).1.db
        none).1.db.docs.map Doc.number) = [5, 5] ∧
    ((runOnce tc0.toClients cfg0 [stB]
        (runOnce tc0.toClients cfg0 [stA] { docs := [], number := 5 } (some 3)).1.db
        none).1.db.docs.map Doc.sid) = [some 1, some 2] := by
  exact ⟨rfl, rfl⟩

/-- C10: the text stored and reused downstream is the cleaned status
text: a complete run on a fresh single-media status persists a record
whose raw field is clean_text of the feed text, whose title embeds that
cleaned text after the sequence number, and whose comment (the body of
the recorded reply call) is built by comment_text from that record, hence
from the cleaned text; the original text with the media short link never
reaches the store or the published title and comment. -/
theorem clean_text_flows (tc : TotalClients) (cfg : Settings) (st : Status) (db : DB)
    {m0 : Media} {dh : String}
    (hdh : cfg.all_hash = some dh) (hm : st.media = [m0])
    (hfresh : check_upload db st.sid = []) :
    ∃ r pl cm,
      check_upload (runOnce tc.toClients cfg [st] db none).1.db st.sid = [r] ∧
      r.raw = clean_text st.text ∧
      r.title = some ("#" ++ toString db.number ++ " - " ++ clean_text st.text) ∧
      r.post = some pl ∧ r.comment = some cm ∧
      Ev.reply st.sid pl (comment_text r) (.ok cm) ∈
        (runOnce tc.toClients cfg [st] db none).1.trace := by
  have hclass : classify db [st] = ([st], []) := by
    simp [classify, hfresh, hm]
  have hmedia' : (mkTweetStatus st).media = [media_url m0] := by
    simp [mkTweetStatus, hm]
  have hdbeq : (initSt cfg db none).db = db := rfl
  have hsideq : (mkTweetStatus st).sid = st.sid := rfl
  have hh0 : (initSt cfg db none).halted = false := rfl
  have hf0 : (initSt cfg db none).fuel = none := rfl
  have hdh0 : (initSt cfg db none).allAlbum.deletehash = some dh := by
    simp [initSt, hdh]
  have hau : ∀ dbx : DB, already_uploaded dbx [] = [] := fun _ => rfl
  simp only [runOnce, upload, get_statuses, hdbeq, hclass]
  rw [if_neg (by simp)]
  simp only [List.map_cons, List.map_nil, to_imgur]
  rw [to_imgur_item_single tc hmedia' hh0 hf0 hdh0]
  simp only [to_reddit, hau]
  rw [to_reddit_item_post_none tc ?hsid1 ?hpost1 ?hh1 ?hf1]
  case hsid1 => rfl
  case hpost1 => rfl
  case hh1 => rfl
  case hf1 => rfl
  simp only [singleEntry, hsideq, hdbeq]
  rw [check_upload_upsertPost_self, check_upload_incrementNumber,
    check_upload_upsertEntry_fresh ?he ?hfr]
  case he => rfl
  case hfr => exact hfresh
  simp only [List.map_cons, List.map_nil]
  refine ⟨_, _, _, rfl, rfl, rfl, rfl, rfl, ?_⟩
  exact List.mem_append_right _ (List.mem_cons_of_mem _ (List.mem_cons_of_mem _
    (List.mem_cons_self _ _)))

/-- Evaluation of C10 on explicit inputs: the persisted and published
texts of one fresh item are built from the cleaned status text. -/
theorem clean_text_flows_witness :
    ∃ r pl cm,
      check_upload (runOnce tc0.toClients cfg0 [st1] db0 none).1.db 1 = [r] ∧
      r.raw = clean_text "hello https://t.co/x" ∧
      r.title = some ("#" ++ toString (5 : Nat) ++ " - " ++
        clean_text "hello https://t.co/x") ∧
      r.post = some pl ∧ r.comment = some cm ∧
      Ev.reply 1 pl (comment_text r) (.ok cm) ∈
        (runOnce tc0.toClients cfg0 [st1] db0 none).1.trace :=
  clean_text_flows tc0 cfg0 st1 db0 rfl rfl rfl

/-!
## Reachable store states
-/

/-- The store states the program can produce: an empty table with any
counter value, then any sequence of top-level invocations with any
clients, settings, feed and interruption point. -/
inductive Reach : DB → Prop where
  | init (n : Nat) : Reach { docs := [], number := n }
  | step (c : Clients) (cfg : Settings) (feed : List Status) (fuel : Option Nat)
      {db : DB} (h : Reach db) : Reach (runOnce c cfg feed db fuel).1.db

/-- One invocation preserves stored-document well-formedness. -/
theorem runOnce_WF {c : Clients} {cfg : Settings} {feed : List Status} {db : DB}
    {fuel : Option Nat} (h : DocsWF db) : DocsWF (runOnce c cfg feed db fuel).1.db := by
  simp only [runOnce, upload]
  by_cases hc : (get_statuses (initSt cfg db fuel).db feed).1.length = 0 ∧
      (get_statuses (initSt cfg db fuel).db feed).2.length = 0
  · rw [if_pos hc]
    exact h
  · rw [if_neg hc]
    simp only
    set s0 := initSt cfg db fuel with hs0
    set U := (get_statuses s0.db feed).1 with hUdef
    set P := (get_statuses s0.db feed).2 with hPdef
    set r1 := to_imgur c U s0 with hr1
    set r2 := to_reddit c cfg.subreddit r1.2 r1.1 with hr2
    set pd := already_uploaded r2.1.db P with hpd
    have h1 : DocsWF r1.1.db := to_imgur_WF h
    by_cases hx : r1.1.halted = true
    · have e2 : r2.1 = r1.1 := to_reddit_halted hx
      have e3 : (to_reddit c cfg.subreddit pd r2.1).1 = r2.1 := by
        rw [e2]
        exact to_reddit_halted hx
      rw [e3, e2]
      exact h1
    · have hx' : r1.1.halted = false := by
        cases hb : r1.1.halted
        · rfl
        · exact absurd hb hx
      have hpres := to_imgur_produced_present hx'
      have h2 : DocsWF r2.1.db := to_reddit_WF h1 (fun dx hd k hk => hpres dx hd k hk)
      refine to_reddit_WF h2 ?_
      intro dx hd k hk
      exact ⟨dx, (get_docs_mem hd).1, hk⟩

/-- Every reachable store has only well-formed documents. -/
theorem Reach_WF {db : DB} (h : Reach db) : DocsWF db := by
  induction h with
  | init n => intro dx hd; exact absurd hd (List.not_mem_nil _)
  | step c cfg feed fuel h ih => exact runOnce_WF ih

/-- C8: in every reachable store state, a record with a non-null post
reference has a non-empty hosted image list: the post stage only ever
touches records the media stage persisted first. -/
theorem stage_ordering_invariant {db : DB} (h : Reach db) :
    ∀ d ∈ db.docs, d.post.isSome = true → d.imgs ≠ [] :=
  fun d hd _ => (Reach_WF h d hd).2

/-- The all-null document, used only as a read default. -/
def d0dflt : Doc :=
  { sid := none, name := "", user := "", tweet := "", raw := "", title := none, imgs := []
    url := none, album := none, aid := none, post := none, comment := none, com := none
    number := 0 }

/-- Evaluation of C8 on an explicit reachable store: the record produced
by one full run has its post set and its image list non-empty. -/
theorem stage_ordering_invariant_witness :
    ((runOnce tc0.toClients cfg0 [st1] db0 none).1.db.docs.headD d0dflt).imgs ≠ [] :=
  stage_ordering_invariant (Reach.step tc0.toClients cfg0 [st1] none (Reach.init 5))
    _ (List.mem_cons_self _ _) rfl

/-!
## Batch wrappers for the resume theorem
-/

theorem get_docs_cons (db : DB) (v : Nat) (l : List Nat) :
    get_docs db (v :: l) = check_upload db v ++ get_docs db l := rfl

/-- A complete imgur pass over single-media statuses none of which carries
the sid k: no halt, album kept, k's documents and counts untouched. -/
theorem to_imgur_other_batch (tc : TotalClients) {l : List TweetStatus} {s : St} {k : Nat}
    {dh : String}
    (hh : s.halted = false) (hf : s.fuel = none) (hdh : s.allAlbum.deletehash = some dh)
    (hl : ∀ ts ∈ l, ∃ m, ts.media = [m]) (hk : ∀ ts ∈ l, ts.sid ≠ k) :
    (to_imgur tc.toClients l s).1.halted = false ∧
    (to_imgur tc.toClients l s).1.fuel = none ∧
    (to_imgur tc.toClients l s).1.allAlbum = s.allAlbum ∧
    check_upload (to_imgur tc.toClients l s).1.db k = check_upload s.db k ∧
    submitCount k (to_imgur tc.toClients l s).1.trace = submitCount k s.trace ∧
    uploadCount k (to_imgur tc.toClients l s).1.trace = uploadCount k s.trace := by
  have hknot : k ∉ l.map TweetStatus.sid := by
    intro hmem
    obtain ⟨ts, hts, hsid⟩ := List.mem_map.1 hmem
    exact hk ts hts hsid
  obtain ⟨h1, h2, h3⟩ := to_imgur_clean tc hh hf hdh hl
  obtain ⟨D, hT, hQ⟩ := @to_imgur_traceP tc.toClients l s
  obtain ⟨hz1, _, hz3⟩ := @count_zero_of_tags_ne D k (l.map TweetStatus.sid)
    (fun e he => (hQ e he).1) hknot
  refine ⟨h1, h2, h3, to_imgur_check_ne hknot, ?_, ?_⟩
  · rw [hT, submitCount_append, hz1, Nat.add_zero]
  · rw [hT, uploadCount_append, hz3, Nat.add_zero]

/-- A complete post pass over null-post documents none of which is keyed
by the sid k: no halt, k's documents and counts untouched. -/
theorem to_reddit_null_batch (tc : TotalClients) {sub : String} {l : List Doc} {s : St}
    {k : Nat} (hh : s.halted = false) (hf : s.fuel = none)
    (hl : ∀ d ∈ l, (∃ v, d.sid = some v ∧ v ≠ k) ∧ d.post = none) :
    (to_reddit tc.toClients sub l s).1.halted = false ∧
    (to_reddit tc.toClients sub l s).1.fuel = none ∧
    check_upload (to_reddit tc.toClients sub l s).1.db k = check_upload s.db k ∧
    submitCount k (to_reddit tc.toClients sub l s).1.trace = submitCount k s.trace ∧
    uploadCount k (to_reddit tc.toClients sub l s).1.trace = uploadCount k s.trace := by
  have hknot : k ∉ l.filterMap Doc.sid := by
    intro hmem
    obtain ⟨dx, hd, hds⟩ := List.mem_filterMap.1 hmem
    obtain ⟨⟨v, hv, hvk⟩, _⟩ := hl dx hd
    rw [hv] at hds
    exact hvk (Option.some_inj.1 hds)
  obtain ⟨hcl1, hcl2⟩ := to_reddit_clean tc hh hf
    (fun dx hd => ⟨Exists.imp (fun v hv => hv.1) (hl dx hd).1, (hl dx hd).2⟩)
  obtain ⟨D, hT, hQ⟩ := @to_reddit_traceP tc.toClients sub l s
  obtain ⟨hz1, _, hz3⟩ := @count_zero_of_tags_ne D k (l.filterMap Doc.sid)
    (fun e he => (hQ e he).1) hknot
  refine ⟨hcl1, hcl2, to_reddit_check_ne hknot, ?_, ?_⟩
  · rw [hT, submitCount_append, hz1, Nat.add_zero]
  · rw [hT, uploadCount_append, hz3, Nat.add_zero]

/-- C1: resume safety.  For an item whose record is already persisted
media complete (non-empty hosted image list, direct link set) with a null
post reference, a subsequent complete run with raising-free clients
submits its reddit post exactly once and never re-uploads its media: no
imgur upload event carries its sid, exactly one submit does, and its
stored record afterwards is the old record with only the post and
comment references newly set, the hosted image ids unchanged.  The feed
is assumed duplicate-free with at most one media attachment per status,
and the store holds at most one record per fetched sid. -/
theorem resume_after_media_stage (tc : TotalClients) (cfg : Settings) (feed : List Status)
    (db : DB) {st0 : Status} {d : Doc} {dh : String} {m0 : Media}
    (hdh : cfg.all_hash = some dh)
    (hfeed : st0 ∈ feed)
    (hnd : (feed.map Status.sid).Nodup)
    (hsingle : ∀ st ∈ feed, st.media.length ≤ 1)
    (hm0 : st0.media = [m0])
    (hdoc : check_upload db st0.sid = [d])
    (huniq : ∀ v ∈ feed.map Status.sid, (check_upload db v).length ≤ 1)
    (himgs : d.imgs ≠ [])
    (hurl : d.url.isSome = true)
    (hpost : d.post = none) :
    uploadCount st0.sid (runOnce tc.toClients cfg feed db none).1.trace = 0 ∧
    submitCount st0.sid (runOnce tc.toClients cfg feed db none).1.trace = 1 ∧
    ∃ pl cm,
      check_upload (runOnce tc.toClients cfg feed db none).1.db st0.sid =
        [{ d with post := some pl, comment := some cm }] := by
  have hsidinj : ∀ x ∈ feed, ∀ y ∈ feed, x.sid = y.sid → x = y := by
    intro x hx y hy hxy
    exact List.inj_on_of_nodup_map hnd hx hy hxy
  have hp0 : st0 ∈ (classify db feed).2 :=
    classify_pend_mem.2 ⟨hfeed, by simp [hm0], ⟨d, [], hdoc, hpost⟩⟩
  obtain ⟨A, B, hAB⟩ := List.append_of_mem hp0
  have hUfeed : ∀ st ∈ (classify db feed).1,
      st ∈ feed ∧ st.media ≠ [] ∧ check_upload db st.sid = [] :=
    fun st hst => classify_unchecked_mem.1 hst
  have hUne : ∀ st ∈ (classify db feed).1, st.sid ≠ st0.sid := by
    intro st hst heq
    have h3 := (hUfeed st hst).2.2
    have h4 : st = st0 := hsidinj st (hUfeed st hst).1 st0 hfeed heq
    rw [h4, hdoc] at h3
    exact List.noConfusion h3
  have hUsingle : ∀ ts ∈ (classify db feed).1.map mkTweetStatus, ∃ m, ts.media = [m] := by
    intro ts hts
    obtain ⟨st, hst, hmk⟩ := List.mem_map.1 hts
    obtain ⟨hstf, hstm, _⟩ := hUfeed st hst
    have hlen := hsingle st hstf
    cases hmedcase : st.media with
    | nil => exact absurd hmedcase hstm
    | cons x xs =>
      cases xs with
      | nil =>
        refine ⟨media_url x, ?_⟩
        rw [← hmk]
        show st.media.map media_url = [media_url x]
        rw [hmedcase]
        rfl
      | cons y ys =>
        rw [hmedcase] at hlen
        simp at hlen
  have hPone : ∀ st ∈ (classify db feed).2,
      ∃ d', check_upload db st.sid = [d'] ∧ d'.post = none := by
    intro st hst
    obtain ⟨hstf, _, d', tl', hchk, hp⟩ := classify_pend_mem.1 hst
    have hlen := huniq st.sid (List.mem_map_of_mem _ hstf)
    rw [hchk] at hlen
    cases tl' with
    | nil => exact ⟨d', hchk, hp⟩
    | cons z zs => simp at hlen
  have hdisj : ∀ st ∈ (classify db feed).2,
      ∀ ts ∈ (classify db feed).1.map mkTweetStatus, ts.sid ≠ st.sid := by
    intro st hst ts hts heq
    obtain ⟨st', hst', hmk⟩ := List.mem_map.1 hts
    have h1 := (hUfeed st' hst').2.2
    obtain ⟨d', hchk, _⟩ := hPone st hst
    have h2 : st'.sid = st.sid := by
      rw [← heq, ← hmk]
      exact rfl
    rw [h2, hchk] at h1
    exact List.noConfusion h1
  have hndP : ((classify db feed).2.map Status.sid).Nodup :=
    List.Nodup.sublist ((classify_sublist_2 db feed).map Status.sid) hnd
  have hndP' : ((A.map Status.sid) ++ st0.sid :: (B.map Status.sid)).Nodup := by
    rw [← List.map_cons, ← List.map_append, ← hAB]
    exact hndP
  have hnotA : st0.sid ∉ A.map Status.sid := by
    intro hmem
    exact (List.disjoint_of_nodup_append hndP') hmem (List.mem_cons_self _ _)
  have hnotB : st0.sid ∉ B.map Status.sid := by
    have h2 := (List.nodup_append.1 hndP').2.1
    exact (List.nodup_cons.1 h2).1
  have hmemA : ∀ st ∈ A, st ∈ (classify db feed).2 := by
    intro st hst
    rw [hAB]
    exact List.mem_append_left _ hst
  have hmemB : ∀ st ∈ B, st ∈ (classify db feed).2 := by
    intro st hst
    rw [hAB]
    exact List.mem_append_right _ (List.mem_cons_of_mem _ hst)
  have hAne : ∀ st ∈ A, st.sid ≠ st0.sid := by
    intro st hst heq
    exact hnotA (heq ▸ List.mem_map_of_mem Status.sid hst)
  have hBne : ∀ st ∈ B, st.sid ≠ st0.sid := by
    intro st hst heq
    exact hnotB (heq ▸ List.mem_map_of_mem Status.sid hst)
  have hdbeq : (initSt cfg db none).db = db := rfl
  simp only [runOnce, upload, hdbeq, get_statuses_fst, get_statuses_snd]
  rw [if_neg ?hcase]
  case hcase =>
    intro hcon
    have h2 := hcon.2
    rw [hAB] at h2
    simp at h2
  simp only
  set s0 := initSt cfg db none with hs0
  set U := (classify db feed).1.map mkTweetStatus with hU
  set P := (classify db feed).2.map mkTweetStatus with hP
  set r1 := to_imgur tc.toClients U s0 with hr1
  set r2 := to_reddit tc.toClients cfg.subreddit r1.2 r1.1 with hr2
  set pd := already_uploaded r2.1.db P with hpd
  have hs0h : s0.halted = false := rfl
  have hs0f : s0.fuel = none := rfl
  have hs0a : s0.allAlbum.deletehash = some dh := by
    rw [hs0]
    simp [initSt, hdh]
  have hUne' : ∀ ts ∈ U, ts.sid ≠ st0.sid := by
    intro ts hts
    obtain ⟨st, hst, hmk⟩ := List.mem_map.1 hts
    have h1 : ts.sid = st.sid := by
      rw [← hmk]
      exact rfl
    rw [h1]
    exact hUne st hst
  obtain ⟨h1h, h1f, h1a, h1db, h1sc, h1uc⟩ :=
    to_imgur_other_batch tc hs0h hs0f hs0a hUsingle hUne'
  have hdocs1 : ∀ dx ∈ r1.2, (∃ v, dx.sid = some v ∧ v ≠ st0.sid) ∧ dx.post = none := by
    intro dx hdx
    obtain ⟨ts, hts, hsid, hpx, _⟩ := to_imgur_docs_shape dx hdx
    exact ⟨⟨ts.sid, hsid, hUne' ts hts⟩, hpx⟩
  obtain ⟨h2h, h2f, h2db, h2sc, h2uc⟩ := to_reddit_null_batch tc h1h h1f hdocs1
  have hVloc : ∀ v, v ∉ U.map TweetStatus.sid →
      check_upload r2.1.db v = check_upload db v := by
    intro v hv
    have e1 : check_upload r1.1.db v = check_upload db v := to_imgur_check_ne hv
    have hv2 : v ∉ r1.2.filterMap Doc.sid := by
      intro hmem
      obtain ⟨dx, hdx, hds⟩ := List.mem_filterMap.1 hmem
      obtain ⟨ts, hts, hsid, _, _⟩ := to_imgur_docs_shape dx hdx
      rw [hsid] at hds
      exact hv ((Option.some_inj.1 hds) ▸ List.mem_map_of_mem TweetStatus.sid hts)
    exact (to_reddit_check_ne hv2).trans e1
  have hPnotU : ∀ st ∈ (classify db feed).2, st.sid ∉ U.map TweetStatus.sid := by
    intro st hst hmem
    obtain ⟨ts, hts, hsid⟩ := List.mem_map.1 hmem
    exact hdisj st hst ts hts hsid
  have hgd : ∀ (X : List Status), (∀ st ∈ X, st ∈ (classify db feed).2) →
      (∀ st ∈ X, st.sid ≠ st0.sid) →
      ∀ dx ∈ get_docs r2.1.db (X.map Status.sid),
        (∃ v, dx.sid = some v ∧ v ≠ st0.sid) ∧ dx.post = none := by
    intro X hXmem hXne dx hdx
    obtain ⟨hdocsmem, v, hv, hdv⟩ := get_docs_mem hdx
    obtain ⟨st, hst, hsid⟩ := List.mem_map.1 hv
    have hstP := hXmem st hst
    obtain ⟨d', hchk, hp'⟩ := hPone st hstP
    have hloc := hVloc v (by rw [← hsid]; exact hPnotU st hstP)
    have hdx2 : dx ∈ check_upload r2.1.db v := by
      simp only [check_upload, List.mem_filter]
      exact ⟨hdocsmem, by simp [hdv]⟩
    rw [hloc, ← hsid, hchk] at hdx2
    have hdxd : dx = d' := by simpa using hdx2
    refine ⟨⟨v, hdv, ?_⟩, by rw [hdxd]; exact hp'⟩
    rw [← hsid]
    exact hXne st hst
  have hgdA := hgd A hmemA hAne
  have hgdB := hgd B hmemB hBne
  have hd_in_db2 : check_upload r2.1.db st0.sid = [d] := by
    have h := hVloc st0.sid (hPnotU st0 hp0)
    rw [hdoc] at h
    exact h
  have hfuneq : ((fun t : TweetStatus => t.sid) ∘ mkTweetStatus) = Status.sid :=
    funext (fun x => rfl)
  have hpdeq : pd = get_docs r2.1.db (A.map Status.sid) ++
      d :: get_docs r2.1.db (B.map Status.sid) := by
    rw [hpd]
    show get_docs r2.1.db (P.map (fun t => t.sid)) = _
    have hmaps : P.map (fun t : TweetStatus => t.sid) =
        A.map Status.sid ++ st0.sid :: B.map Status.sid := by
      rw [hP, hAB, List.map_map, hfuneq, List.map_append, List.map_cons]
    rw [hmaps, get_docs_append, get_docs_cons, hd_in_db2]
    rfl
  rw [hpdeq, to_reddit_append]
  simp only [to_reddit]
  obtain ⟨hAh, hAf, hAdb, hAsc, hAuc⟩ := to_reddit_null_batch tc h2h h2f hgdA
  have hAdb2 : check_upload (to_reddit tc.toClients cfg.subreddit
      (get_docs r2.1.db (A.map Status.sid)) r2.1).1.db st0.sid = [d] :=
    hAdb.trans hd_in_db2
  have hd_sid : d.sid = some st0.sid := by
    have hmem : d ∈ db.docs.filter (fun x => x.sid == some st0.sid) := by
      rw [show db.docs.filter (fun x => x.sid == some st0.sid) =
        check_upload db st0.sid from rfl, hdoc]
      exact List.mem_cons_self _ _
    have h2 := (List.mem_filter.1 hmem).2
    simpa using h2
  have hitem := @to_reddit_item_post_none tc cfg.subreddit d _ st0.sid hd_sid hpost hAh hAf
  have hIh : (to_reddit_item tc.toClients cfg.subreddit d
      (to_reddit tc.toClients cfg.subreddit
        (get_docs r2.1.db (A.map Status.sid)) r2.1).1).1.halted = false := by
    rw [hitem]
    exact hAh
  have hIf : (to_reddit_item tc.toClients cfg.subreddit d
      (to_reddit tc.toClients cfg.subreddit
        (get_docs r2.1.db (A.map Status.sid)) r2.1).1).1.fuel = none := by
    rw [hitem]
    exact hAf
  obtain ⟨hBh, hBf, hBdb, hBsc, hBuc⟩ := to_reddit_null_batch tc hIh hIf hgdB
  have hIdb : (to_reddit_item tc.toClients cfg.subreddit d
      (to_reddit tc.toClients cfg.subreddit
        (get_docs r2.1.db (A.map Status.sid)) r2.1).1).1.db =
      upsertPost (to_reddit tc.toClients cfg.subreddit
          (get_docs r2.1.db (A.map Status.sid)) r2.1).1.db st0.sid
        (some (tc.submit cfg.subreddit (d.title.getD "") (d.url.getD ""))) d.url
        (some (tc.reply (tc.submit cfg.subreddit (d.title.getD "") (d.url.getD ""))
          (comment_text d))) := by
    rw [hitem]
  have hIsc : submitCount st0.sid (to_reddit_item tc.toClients cfg.subreddit d
      (to_reddit tc.toClients cfg.subreddit
        (get_docs r2.1.db (A.map Status.sid)) r2.1).1).1.trace =
      submitCount st0.sid (to_reddit tc.toClients cfg.subreddit
        (get_docs r2.1.db (A.map Status.sid)) r2.1).1.trace + 1 := by
    rw [hitem]
    simp [submitCount_append, submitCount, isSubmitEv]
  have hIuc : uploadCount st0.sid (to_reddit_item tc.toClients cfg.subreddit d
      (to_reddit tc.toClients cfg.subreddit
        (get_docs r2.1.db (A.map Status.sid)) r2.1).1).1.trace =
      uploadCount st0.sid (to_reddit tc.toClients cfg.subreddit
        (get_docs r2.1.db (A.map Status.sid)) r2.1).1.trace := by
    rw [hitem]
    simp [uploadCount_append, uploadCount, isUploadEv]
  have hs0tr : submitCount st0.sid s0.trace = 0 := rfl
  have hs0tr2 : uploadCount st0.sid s0.trace = 0 := rfl
  refine ⟨?_, ?_, ?_⟩
  · rw [hBuc, hIuc, hAuc, h2uc, h1uc, hs0tr2]
  · rw [hBsc, hIsc, hAsc, h2sc, h1sc, hs0tr]
  · refine ⟨tc.submit cfg.subreddit (d.title.getD "") (d.url.getD ""),
      tc.reply (tc.submit cfg.subreddit (d.title.getD "") (d.url.getD ""))
        (comment_text d), ?_⟩
    rw [hBdb, hIdb, check_upload_upsertPost_self, hAdb2]
    rfl

/-- Evaluation of C1 on explicit inputs: the media-done record of dbP is
posted once, never re-uploaded, and ends with only its post and comment
references added. -/
theorem resume_after_media_stage_witness :
    uploadCount 9 (runOnce tc0.toClients cfg0 [stP] dbP none).1.trace = 0 ∧
    submitCount 9 (runOnce tc0.toClients cfg0 [stP] dbP none).1.trace = 1 ∧
    ∃ pl cm,
      check_upload (runOnce tc0.toClients cfg0 [stP] dbP none).1.db 9 =
        [{ dP with post := some pl, comment := some cm }] :=
  resume_after_media_stage tc0 cfg0 [stP] dbP rfl (List.mem_cons_self _ _)
    (by decide) (by decide) rfl rfl (by decide) (by decide) rfl rfl

end T2R
